/-
Verification of the Reader import pipeline (scripts/py).

The Python sources are shallowly embedded: strings become `List Char`
(`Str`), pure functions become Lean functions, and the process entry
points become functions from an explicit environment (which models what
the external parsing libraries hand the scripts: page texts, item
contents, metadata, file existence) to an exit code plus the text
written to stdout and stderr.

Sections:
  * Python string primitives (str.strip, re.sub(r"\s+", " "),
    str.split("\n\n"), re.split(r"\n{2,}"), str.splitlines, str.join)
  * scripts/py/pdf_extract.py   (clean_text, extract, main)
  * scripts/py/import_pdf.py    (page_to_section, normalise_metadata, main)
  * an html.parser event tokenizer and scripts/py/import_epub.py
  * a BeautifulSoup tree model and scripts/py/epub_extract.py
  * a model of json.dump(..., ensure_ascii=False)
  * lemmas and the claim theorems
-/
import Mathlib

set_option linter.unusedVariables false

namespace Reader

/-- Strings are modelled as lists of unicode characters. -/
abbrev Str := List Char

/-- The set of characters Python treats as whitespace for `str.strip()`,
`str.isspace()` and (for `str` patterns) the regex class `\s`: the ASCII
whitespace characters, the C1/Unicode separators and the Unicode
space-separator category. -/
def isPySpace (c : Char) : Bool :=
  c == ' ' || c == '\t' || c == '\n' || c == '\x0b' || c == '\x0c' || c == '\r' ||
  c == '\x1c' || c == '\x1d' || c == '\x1e' || c == '\x1f' || c == '\x85' ||
  c == '\xa0' || c == ' ' || (0x2000 ≤ c.val && c.val ≤ 0x200a) ||
  c == ' ' || c == ' ' || c == ' ' || c == ' ' || c == '　'

/-- Leading-whitespace removal, the left half of Python `str.strip()`. -/
def lstripWs : Str → Str
  | [] => []
  | c :: rest => if isPySpace c then lstripWs rest else c :: rest

/-- Trailing-whitespace removal, the right half of Python `str.strip()`. -/
def rstripWs : Str → Str
  | [] => []
  | c :: rest => if rstripWs rest = [] ∧ isPySpace c then [] else c :: rstripWs rest

/-- Python `str.strip()` with no argument: drop leading and trailing
whitespace. -/
def pyStrip (s : Str) : Str := rstripWs (lstripWs s)

/-- True when the string is empty or starts with a non-whitespace
character. -/
def headNotWs (s : Str) : Bool :=
  match s.head? with
  | some c => !isPySpace c
  | none => true

/-- Scanner for `re.sub(r"\s+", " ", s)`: each maximal whitespace run is
replaced by a single space.  `inRun` records whether the previous
character was whitespace (so the replacement space was already
emitted). -/
def msubAux (inRun : Bool) : Str → Str
  | [] => []
  | c :: rest =>
    if isPySpace c then
      if inRun then msubAux true rest else ' ' :: msubAux true rest
    else c :: msubAux false rest

/-- Model of `MULTISPACE.sub(" ", s)` from pdf_extract.py / `CLEAN_RE.sub(" ", s)`
from epub_extract.py. -/
def multispaceSub (s : Str) : Str := msubAux false s

/-- Shared collapse step `RE.sub(" ", block).strip()`: the whitespace-collapse-and-trim step
shared by pdf_extract.clean_text and epub_extract.clean_paragraph. -/
def collapseStrip (s : Str) : Str := pyStrip (multispaceSub s)

/-- Python `sep.join(parts)`. -/
def pyJoin (sep : Str) : List Str → Str
  | [] => []
  | [p] => p
  | p :: ps => p ++ sep ++ pyJoin sep ps

/-- Prepend a character to the first block of a block list (used by the
split scanners, which process the string from the left). -/
def consHead (c : Char) : List Str → List Str
  | [] => [[c]]
  | b :: bs => (c :: b) :: bs

mutual
/-- Python `s.split("\n\n")`: left-to-right scan cutting at each
non-overlapping occurrence of the two-character separator. -/
def splitNN : Str → List Str
  | [] => [[]]
  | c :: rest => if c = '\n' then splitNNPending rest else consHead c (splitNN rest)

/-- State of `splitNN` after one `'\n'` has been read: a second `'\n'`
completes the separator, anything else makes the pending newline
literal text. -/
def splitNNPending : Str → List Str
  | [] => [['\n']]
  | c :: rest =>
    if c = '\n' then [] :: splitNN rest
    else consHead '\n' (consHead c (splitNN rest))
end

mutual
/-- Model of `re.split(r"\n{2,}", s)`: cut at each maximal run of two or more
newlines (this is the wording of the specification; pdf_extract.py
itself uses `s.split("\n\n")`, compare `splitNN`). -/
def splitRuns : Str → List Str
  | [] => [[]]
  | c :: rest => if c = '\n' then splitRunsPending rest else consHead c (splitRuns rest)

/-- One `'\n'` seen: a second one starts a separator run, otherwise the
newline is literal text. -/
def splitRunsPending : Str → List Str
  | [] => [['\n']]
  | c :: rest =>
    if c = '\n' then [] :: splitRunsSkip rest
    else consHead '\n' (consHead c (splitRuns rest))

/-- Inside a separator run: consume the remaining newlines of the run. -/
def splitRunsSkip : Str → List Str
  | [] => [[]]
  | c :: rest => if c = '\n' then splitRunsSkip rest else consHead c (splitRuns rest)
end

mutual
/-- Model of `LINE_HYPHEN.sub("", s)` with `LINE_HYPHEN = re.compile(r"-\n")`:
single left-to-right pass deleting each non-overlapping occurrence of
a hyphen directly followed by a newline. -/
def dehyphen : Str → Str
  | [] => []
  | c :: rest => if c = '-' then dehyphenPending rest else c :: dehyphen rest

/-- One `'-'` seen: a following `'\n'` completes the deleted pattern,
otherwise the hyphen is literal (and the next character is examined as
a fresh potential match start, as `re.sub` does not rescan). -/
def dehyphenPending : Str → Str
  | [] => ['-']
  | c :: rest =>
    if c = '\n' then dehyphen rest
    else if c = '-' then '-' :: dehyphenPending rest
    else '-' :: c :: dehyphen rest
end

/-- Python `s.replace("\r", "\n")`. -/
def crToLf (s : Str) : Str := s.map (fun c => if c = '\r' then '\n' else c)

namespace PdfExtract

/-- The paragraph list built inside pdf_extract.clean_text:
`[MULTISPACE.sub(" ", block).strip() for block in text.split("\n\n") if block.strip()]`
applied to `LINE_HYPHEN.sub("", raw).replace("\r", "\n")`. -/
def clean_text_blocks (raw : Str) : List Str :=
  ((splitNN (crToLf (dehyphen raw))).filter (fun b => pyStrip b != [])).map collapseStrip

/-- pdf_extract.clean_text: the paragraph blocks re-joined with a blank
line. -/
def clean_text (raw : Str) : Str :=
  pyJoin ['\n', '\n'] (clean_text_blocks raw)

end PdfExtract

/-- The Text Normalizer as the specification words it (claim C4): delete
`-\n`, normalise `\r` to `\n`, split on runs of two or more newlines,
collapse and trim every block, drop the blocks that are empty after
trimming. -/
def spec_normalize (raw : Str) : List Str :=
  ((splitRuns (crToLf (dehyphen raw))).map collapseStrip).filter (fun b => b != [])

/-- The filter-then-collapse step applied to a block list; pdf_extract's
list comprehension is exactly this function applied to the split result. -/
def normBlocks (L : List Str) : List Str :=
  (L.filter (fun b => pyStrip b != [])).map collapseStrip

/-- A string is collapsed when its only whitespace characters are single
spaces never followed by further whitespace (the shape `re.sub(r"\s+", " ")`
produces). -/
def collapsed : Str → Bool
  | [] => true
  | c :: rest => (if isPySpace c then c == ' ' && headNotWs rest else true) && collapsed rest

/-- True when the string contains no hyphen directly followed by a
newline, i.e. `LINE_HYPHEN` has no match. -/
def noHyphenBreak : Str → Bool
  | [] => true
  | c :: rest => !(c == '-' && rest.head? == some '\n') && noHyphenBreak rest

/-- A JSON value, as handed to `json.dump`. -/
inductive Json where
  | null
  | bool (b : Bool)
  | num (n : Int)
  | str (s : Str)
  | arr (items : List Json)
  | obj (fields : List (Str × Json))

/-- The character for one digit value (0-15, lowercase hex letters). -/
def digitChar (n : Nat) : Char :=
  match n with
  | 0 => '0' | 1 => '1' | 2 => '2' | 3 => '3' | 4 => '4'
  | 5 => '5' | 6 => '6' | 7 => '7' | 8 => '8' | 9 => '9'
  | 10 => 'a' | 11 => 'b' | 12 => 'c' | 13 => 'd' | 14 => 'e' | 15 => 'f'
  | _ => '*'

/-- Decimal digits of a natural number, most significant first (Python
`str(n)` for a non-negative int). -/
def natDigits (n : Nat) : Str :=
  if h : n < 10 then [digitChar n]
  else natDigits (n / 10) ++ [digitChar (n % 10)]
decreasing_by exact Nat.div_lt_self (by omega) (by omega)

/-- Python `str(n)` for an int, as serialized by `json.dump`. -/
def renderInt (n : Int) : Str :=
  if n < 0 then '-' :: natDigits (-n).toNat else natDigits n.toNat

/-- One character of a JSON string as `json.dump(..., ensure_ascii=False)`
emits it: only the quote, the backslash and control characters below
U+0020 are escaped; everything else (including all non-ASCII
characters) is written literally. -/
def escChar (c : Char) : Str :=
  if c = '"' then ['\\', '"']
  else if c = '\\' then ['\\', '\\']
  else if c = '\n' then ['\\', 'n']
  else if c = '\r' then ['\\', 'r']
  else if c = '\t' then ['\\', 't']
  else if c = '\x08' then ['\\', 'b']
  else if c = '\x0c' then ['\\', 'f']
  else if c.val < 0x20 then
    ['\\', 'u', '0', '0', digitChar (c.val.toNat / 16), digitChar (c.val.toNat % 16)]
  else [c]

/-- Escape a whole string for JSON output. -/
def escapeStr (s : Str) : Str := (s.map escChar).flatten

/-- A JSON string literal: quoted and escaped. -/
def renderQuoted (s : Str) : Str := '"' :: escapeStr s ++ ['"']

mutual
/-- Model of `json.dump(value, ensure_ascii=False)` with the default separators
`", "` and `": "`: a single line with no trailing newline. -/
def renderJson : Json → Str
  | .null => "null".data
  | .bool true => "true".data
  | .bool false => "false".data
  | .num n => renderInt n
  | .str s => renderQuoted s
  | .arr items => '[' :: renderItems items ++ [']']
  | .obj fields => '{' :: renderFields fields ++ ['}']

/-- Array elements joined by `", "`. -/
def renderItems : List Json → Str
  | [] => []
  | [x] => renderJson x
  | x :: xs => renderJson x ++ ',' :: ' ' :: renderItems xs

/-- Object entries `key: value` joined by `", "`. -/
def renderFields : List (Str × Json) → Str
  | [] => []
  | [(k, v)] => renderQuoted k ++ ':' :: ' ' :: renderJson v
  | (k, v) :: fs => renderQuoted k ++ ':' :: ' ' :: renderJson v ++ ',' :: ' ' :: renderFields fs
end

/-- The keys of a JSON object, in emission order. -/
def jsonKeys : Json → List Str
  | .obj fields => fields.map (fun kv => kv.1)
  | _ => []

/-- Field lookup in a JSON object. -/
def jsonGet (j : Json) (k : Str) : Option Json :=
  match j with
  | .obj fields => List.lookup k fields
  | _ => Option.none

/-- True for the JSON values the specification calls scalar: strings,
numbers, booleans and null; false for arrays and objects. -/
def isScalarJson : Json → Bool
  | .null | .bool _ | .num _ | .str _ => true
  | .arr _ | .obj _ => false

/-- A Python value as the importers' metadata handling sees it.  The
float case is not modelled: the PDF library hands the scripts string
metadata values, and nothing in the scripts creates floats. -/
inductive PyVal where
  | str (s : Str)
  | int (n : Int)
  | bool (b : Bool)
  | none
  | list (items : List PyVal)
  | dict (fields : List (Str × PyVal))

/-- The test `isinstance(value, (str, int, float, bool)) or value is None`: the
scalar test of import_pdf.normalise_metadata. -/
def isScalarPyVal : PyVal → Bool
  | .str _ | .int _ | .bool _ | .none => true
  | .list _ | .dict _ => false

/-- Python truthiness of a value. -/
def pyTruthy : PyVal → Bool
  | .str s => !s.isEmpty
  | .int n => n != 0
  | .bool b => b
  | .none => false
  | .list items => !items.isEmpty
  | .dict fields => !fields.isEmpty

mutual
/-- How `json.dump` maps a Python value into the JSON model. -/
def pyValJson : PyVal → Json
  | .str s => .str s
  | .int n => .num n
  | .bool b => .bool b
  | .none => .null
  | .list items => .arr (pyValJsonList items)
  | .dict fields => .obj (pyValJsonFields fields)

/-- Elementwise image of a Python list. -/
def pyValJsonList : List PyVal → List Json
  | [] => []
  | v :: vs => pyValJson v :: pyValJsonList vs

/-- Entrywise image of a Python dict. -/
def pyValJsonFields : List (Str × PyVal) → List (Str × Json)
  | [] => []
  | (k, v) :: fs => (k, pyValJson v) :: pyValJsonFields fs
end

/-- Python `md.get(k)` on a dict modelled as an association list, with `None`
for a missing key. -/
def pyGet (md : List (Str × PyVal)) (k : Str) : PyVal :=
  (List.lookup k md).getD PyVal.none

/-- A section dict as both importers build it: `id`, `heading` and a
single string `content`. -/
structure Section where
  id : Str
  heading : Option Str
  content : Str
deriving DecidableEq

/-- The JSON image of a section dict (insertion order id, heading,
content). -/
def sectionJson (s : Section) : Json :=
  Json.obj [("id".data, Json.str s.id),
    ("heading".data, match s.heading with
      | Option.some h => Json.str h
      | Option.none => Json.null),
    ("content".data, Json.str s.content)]

/-- Exit code and the text written to stdout and stderr by one process
run. -/
structure RunResult where
  exitCode : Nat
  out : Str
  err : Str
deriving DecidableEq

/-- What the PDF scripts receive from the outside world: whether the
path exists, whether `fitz.open` succeeds (with the exception text
otherwise), the per-page text `page.get_text("text")`, the library
metadata dict, and the path stem.  Both PDF scripts run against this
environment. -/
structure PdfEnv where
  pathExists : Bool
  openOk : Bool
  openErrMsg : Str
  pages : List Str
  metadata : List (Str × PyVal)
  stem : Str

namespace ImportPdf

/-- import_pdf.page_to_section: strip the page text, drop the page if
nothing remains, else id = 1-based position as decimal string, no
heading, content = the stripped text. -/
def page_to_section (page : Str) (index : Nat) : Option Section :=
  let text := pyStrip page
  if text = [] then Option.none
  else Option.some ⟨natDigits (index + 1), Option.none, text⟩

/-- import_pdf.normalise_metadata: keep only scalar-or-None values. -/
def normalise_metadata (metadata : List (Str × PyVal)) : List (Str × PyVal) :=
  metadata.filter (fun kv => isScalarPyVal kv.2)

/-- The section list the main loop accumulates. -/
def sectionsOf (env : PdfEnv) : List Section :=
  env.pages.enum.filterMap (fun p => page_to_section p.2 p.1)

/-- The warning literal of import_pdf.py. -/
def noTextWarning : Str := "No se encontró texto en el PDF".data

/-- Model of `warnings = []` plus the single append when no section survived. -/
def warningsOf (sections : List Section) : List Str :=
  if sections.isEmpty then [noTextWarning] else []

/-- The payload dict of import_pdf.main, in insertion order. -/
def payloadJson (env : PdfEnv) : Json :=
  let metadata := normalise_metadata env.metadata
  let title := pyGet metadata "title".data
  let language :=
    if pyTruthy (pyGet metadata "language".data) then pyGet metadata "language".data
    else pyGet metadata "lang".data
  Json.obj
    [("title".data, if pyTruthy title then pyValJson title else Json.null),
     ("language".data, if pyTruthy language then pyValJson language else Json.null),
     ("sections".data, Json.arr ((sectionsOf env).map sectionJson)),
     ("metadata".data, Json.obj (pyValJsonFields metadata)),
     ("warnings".data, Json.arr ((warningsOf (sectionsOf env)).map Json.str))]

/-- import_pdf.main: usage check, existence check, open, convert, dump.
On success the payload is written to stdout followed by a newline. -/
def main (argv : List Str) (env : PdfEnv) : RunResult :=
  if argv.length ≠ 2 then ⟨1, [], "Usage: import_pdf.py <path-to-pdf>\n".data⟩
  else if !env.pathExists then
    ⟨1, [], "File not found: ".data ++ argv.getD 1 [] ++ ['\n']⟩
  else if !env.openOk then
    ⟨1, [], "Unable to open PDF: ".data ++ env.openErrMsg ++ ['\n']⟩
  else ⟨0, renderJson (payloadJson env) ++ ['\n'], []⟩

end ImportPdf

namespace PdfExtract

/-- Model of `meta.get("title") or pdf_path.stem` in pdf_extract.extract. -/
def metaTitleVal (env : PdfEnv) : PyVal :=
  if pyTruthy (pyGet env.metadata "title".data) then pyGet env.metadata "title".data
  else PyVal.str env.stem

/-- Model of `meta.get("author") or ""` in pdf_extract.extract. -/
def metaAuthorVal (env : PdfEnv) : PyVal :=
  if pyTruthy (pyGet env.metadata "author".data) then pyGet env.metadata "author".data
  else PyVal.str []

/-- The `{"ok": True, "pages": ..., "meta": ...}` payload of
pdf_extract.extract. -/
def extractPayloadJson (env : PdfEnv) : Json :=
  Json.obj
    [("ok".data, Json.bool true),
     ("pages".data, Json.arr (env.pages.map
        (fun t => Json.obj [("text".data, Json.str (clean_text t))]))),
     ("meta".data, Json.obj
        [("title".data, pyValJson (metaTitleVal env)),
         ("author".data, pyValJson (metaAuthorVal env))])]

/-- The `{"ok": false, "code": ..., "message": ...}` error payload. -/
def errorJson (code msg : Str) : Json :=
  Json.obj [("ok".data, Json.bool false), ("code".data, Json.str code),
    ("message".data, Json.str msg)]

/-- pdf_extract.main.  `raise SystemExit(string)` prints the string to
stderr followed by a newline and exits with status 1; on success the
payload is printed to stdout. -/
def main (argv : List Str) (env : PdfEnv) : RunResult :=
  if argv.length ≠ 2 then ⟨1, [], "Uso: pdf_extract.py <ruta_pdf>\n".data⟩
  else if !env.pathExists then
    ⟨1, [], renderJson (errorJson "PDF_NOT_FOUND".data (argv.getD 1 [])) ++ ['\n']⟩
  else if !env.openOk then
    ⟨1, [], renderJson (errorJson "PDF_OPEN_FAIL".data env.openErrMsg) ++ ['\n']⟩
  else ⟨0, renderJson (extractPayloadJson env) ++ ['\n'], []⟩

end PdfExtract

/-- The named character references modelled for `html.unescape` (the
full HTML5 table restricted to the references this development
exercises; strings without references are unaffected, which is the case
for every input below). -/
def charrefTable : List (Str × Char) :=
  [("amp".data, '&'), ("lt".data, '<'), ("gt".data, '>'), ("quot".data, '"'),
   ("apos".data, '\'')]

/-- Decode the body of one `&...;` reference: `#` decimal, `#x` hex, or
a named reference. -/
def decodeRef (name : Str) : Option Char :=
  match name with
  | '#' :: 'x' :: ds =>
    if ds ≠ [] ∧ ds.all (fun c => c.isDigit || ('a' ≤ c ∧ c ≤ 'f') || ('A' ≤ c ∧ c ≤ 'F')) then
      let n := ds.foldl (fun acc c =>
        acc * 16 + (if c.isDigit then c.toNat - '0'.toNat
          else if 'a' ≤ c then c.toNat - 'a'.toNat + 10 else c.toNat - 'A'.toNat + 10)) 0
      if n < 0xd800 ∨ (0xdfff < n ∧ n < 0x110000) then Option.some (Char.ofNat n)
      else Option.none
    else Option.none
  | '#' :: ds =>
    if ds ≠ [] ∧ ds.all (fun c => c.isDigit) then
      let n := ds.foldl (fun acc c => acc * 10 + (c.toNat - '0'.toNat)) 0
      if n < 0xd800 ∨ (0xdfff < n ∧ n < 0x110000) then Option.some (Char.ofNat n)
      else Option.none
    else Option.none
  | _ => List.lookup name charrefTable

/-- Try to read one character reference right after a `'&'`: the
reference body up to a mandatory `';'`, returning the decoded character
and the remaining input. -/
def parseCharref (s : Str) : Option (Char × Str) :=
  let body := s.takeWhile (fun c => c.isAlphanum || c == '#')
  match s.drop body.length with
  | ';' :: after =>
    match decodeRef body with
    | Option.some c => Option.some (c, after)
    | Option.none => Option.none
  | _ => Option.none

/-- Fuelled scanner for `html.unescape` / the automatic conversion that
`convert_charrefs=True` performs on character data: replace each
recognised `&...;` reference by its character, leave everything else
(including a bare `'&'`) alone.  The fuel only makes the recursion
structural; every step consumes at least one input character, so
`convertCharrefs` below can never exhaust it. -/
def convertCharrefsF : Nat → Str → Str
  | 0, _ => []
  | _, [] => []
  | fuel + 1, c :: rest =>
    if c = '&' then
      match parseCharref rest with
      | Option.some p => p.1 :: convertCharrefsF fuel p.2
      | Option.none => '&' :: convertCharrefsF fuel rest
    else c :: convertCharrefsF fuel rest

/-- Python `html.unescape(s)`. -/
def convertCharrefs (s : Str) : Str := convertCharrefsF s.length s

/-- One html.parser event: start tag, end tag or character data.  Data
events carry the text with character references already converted
(`convert_charrefs=True`), except inside script/style elements where
the raw text is reported. -/
inductive HEvent where
  | stag (name : Str)
  | etag (name : Str)
  | text (s : Str)
deriving DecidableEq

/-- The elements whose content html.parser reads as raw text up to the
matching close tag. -/
def cdataElems : List Str := ["script".data, "style".data]

/-- Split at the first occurrence of `stop`: the prefix before it and,
when found, the remainder after it. -/
def splitAtChar (stop : Char) : Str → Str × Option Str
  | [] => ([], Option.none)
  | c :: rest =>
    if c = stop then ([], Option.some rest)
    else
      let p := splitAtChar stop rest
      (c :: p.1, p.2)

/-- Split at the first occurrence of the pattern: the prefix before it
and the remainder starting with the pattern. -/
def findSub (pat : Str) : Str → Option (Str × Str)
  | [] => if pat.isPrefixOf ([] : Str) then Option.some ([], []) else Option.none
  | c :: rest =>
    if pat.isPrefixOf (c :: rest) then Option.some ([], c :: rest)
    else
      match findSub pat rest with
      | Option.some p => Option.some (c :: p.1, p.2)
      | Option.none => Option.none

mutual
/-- The html.parser tokenizer for the element/text/charref fragment
language the scripts feed it (tag names are lowercased; attributes are
skipped up to the closing `'>'`; `<x/>` reports a start and an end
event; script/style switch to raw-text mode).  Declarations, comments
and processing instructions do not occur in the modelled inputs.  The
fuel only makes the mutual recursion structural: every recursive call
consumes input, so the bound chosen in `tokenize` cannot be
exhausted. -/
def tokenizeF : Nat → Str → List HEvent
  | 0, _ => []
  | _, [] => []
  | fuel + 1, c :: rest =>
    if c = '<' then tokenizeTagF fuel rest
    else
      HEvent.text (convertCharrefs ((c :: rest).takeWhile (fun d => d ≠ '<'))) ::
        tokenizeF fuel ((c :: rest).dropWhile (fun d => d ≠ '<'))

/-- Parse the inside of a `<...>` construct (the opening `'<'` already
consumed). -/
def tokenizeTagF : Nat → Str → List HEvent
  | 0, _ => []
  | _, [] => [HEvent.text ['<']]
  | fuel + 1, c :: r2 =>
    if c = '/' then
      match splitAtChar '>' r2 with
      | (inside, Option.some after) =>
        HEvent.etag ((inside.takeWhile (fun d => d.isAlphanum)).map Char.toLower) ::
          tokenizeF fuel after
      | (_, Option.none) => []
    else if c.isAlpha then
      let name := ((c :: r2).takeWhile (fun d => d.isAlphanum)).map Char.toLower
      match splitAtChar '>' (c :: r2) with
      | (inside, Option.some after) =>
        if inside.getLast? = some '/' then
          HEvent.stag name :: HEvent.etag name :: tokenizeF fuel after
        else if name ∈ cdataElems then HEvent.stag name :: cdataScanF fuel name after
        else HEvent.stag name :: tokenizeF fuel after
      | (_, Option.none) => []
    else HEvent.text ['<'] :: tokenizeF fuel (c :: r2)

/-- Raw-text mode inside script/style: everything up to the first
`</name` is character data (reported raw), then normal parsing resumes
at that close tag. -/
def cdataScanF : Nat → Str → Str → List HEvent
  | 0, _, _ => []
  | fuel + 1, name, s =>
    match findSub ('<' :: '/' :: name) s with
    | Option.some p => (if p.1 = [] then [] else [HEvent.text p.1]) ++ tokenizeF fuel p.2
    | Option.none => if s = [] then [] else [HEvent.text s]
end

/-- The event stream html.parser produces for a fragment. -/
def tokenize (s : Str) : List HEvent := tokenizeF (3 * s.length + 3) s

/-- The characters Python `str.splitlines` treats as line boundaries
(`\r\n` counts as a single boundary). -/
def isLineBoundary (c : Char) : Bool :=
  c == '\n' || c == '\r' || c == '\x0b' || c == '\x0c' || c == '\x1c' || c == '\x1d' ||
  c == '\x1e' || c == '\x85' || c == ' ' || c == ' '

/-- Python `str.splitlines`: `cur` is the line read so far; a final
unterminated line is kept, a terminator at the end produces no empty
trailing line. -/
def pySplitlinesAux : Str → Str → List Str
  | cur, [] => if cur.isEmpty then [] else [cur]
  | cur, '\r' :: '\n' :: r2 => cur :: pySplitlinesAux [] r2
  | cur, c :: rest =>
    if c = '\r' then cur :: pySplitlinesAux [] rest
    else if isLineBoundary c then cur :: pySplitlinesAux [] rest
    else pySplitlinesAux (cur ++ [c]) rest

/-- Python `s.splitlines()`. -/
def pySplitlines (s : Str) : List Str := pySplitlinesAux [] s

namespace ImportEpub

/-- The BLOCK_TAGS set of import_epub.py. -/
def BLOCK_TAGS : List Str :=
  ["p".data, "div".data, "section".data, "article".data, "h1".data, "h2".data,
   "h3".data, "h4".data, "h5".data, "h6".data, "li".data, "ol".data, "ul".data,
   "blockquote".data, "br".data]

/-- The three HTMLParser callbacks of TextExtractor folded over one
event: handle_starttag and handle_endtag append a newline part for
block tags, handle_data appends `unescape(data)` when the data is
non-empty.  No tag is ever excluded. -/
def teStep (parts : List Str) (e : HEvent) : List Str :=
  match e with
  | HEvent.stag t => if t ∈ BLOCK_TAGS then parts ++ [['\n']] else parts
  | HEvent.etag t => if t ∈ BLOCK_TAGS then parts ++ [['\n']] else parts
  | HEvent.text s => if s.isEmpty then parts else parts ++ [convertCharrefs s]

/-- TextExtractor.get_text: join the parts, split into lines, strip each
line, drop the blank ones. -/
def get_text_lines (parts : List Str) : List Str :=
  ((pySplitlines parts.flatten).map pyStrip).filter (fun l => l != [])

/-- TextExtractor.get_text: the surviving lines re-joined with `"\n"`. -/
def get_text (parts : List Str) : Str := pyJoin ['\n'] (get_text_lines parts)

/-- import_epub.html_to_text: feed the fragment to the parser and
collect the text.  The `bytes.decode("utf-8", errors="ignore")` step is
outside the model: the content arrives as a string. -/
def html_to_text (content : Str) : Str :=
  get_text ((tokenize content).foldl teStep [])

/-- The line list html_to_text joins, i.e. the paragraphs this extractor
produces. -/
def html_to_text_lines (content : Str) : List Str :=
  get_text_lines ((tokenize content).foldl teStep [])

/-- One EPUB document item as ebooklib hands it to the script: its name
(`item.get_name()`), the `title` attribute read by
`getattr(item, "title", None)`, and its content, already decoded. -/
structure EpubItem where
  name : Str
  title : Option Str
  content : Str

/-- What the EPUB scripts receive from the outside world.  `metadata`
is `book.metadata`: namespace, then entry name, then a list of
(value, qualifier-dict) entries; `dcTitle` and `dcLanguage` are the
results of `book.get_metadata("DC", "title")` and `("DC", "language")`. -/
structure EpubEnv where
  pathExists : Bool
  openOk : Bool
  openErrMsg : Str
  items : List EpubItem
  metadata : List (Str × List (Str × List (Str × List (Str × Str))))
  dcTitle : List (Str × List (Str × Str))
  dcLanguage : List (Str × List (Str × Str))

/-- import_epub.normalise_metadata: per namespace and entry name, keep
the first tuple component of every entry.  (`if entry` filters falsy
entries; an entry is a two-tuple and a non-empty tuple is always
truthy, so nothing is dropped.)  The nested namespace structure is kept
as-is. -/
def normalise_metadata (metadata : List (Str × List (Str × List (Str × List (Str × Str))))) :
    List (Str × List (Str × List Str)) :=
  metadata.map (fun ns => (ns.1, ns.2.map (fun nm => (nm.1, nm.2.map (fun entry => entry.1)))))

/-- The JSON image of the normalised metadata dict. -/
def metadataJson (md : List (Str × List (Str × List Str))) : Json :=
  Json.obj (md.map (fun ns =>
    (ns.1, Json.obj (ns.2.map (fun nm => (nm.1, Json.arr (nm.2.map Json.str)))))))

/-- import_epub.first_metadata: the first truthy (non-empty) value, else
None. -/
def first_metadata : List Str → Option Str
  | [] => Option.none
  | v :: rest => if v.isEmpty then first_metadata rest else Option.some v

/-- The body of the section loop in import_epub.main: skip the item if
html_to_text yields nothing, else id = item name, heading = the item's
declared title attribute, content = the extracted text. -/
def sectionOfItem (item : EpubItem) : Option Section :=
  let text := html_to_text item.content
  if text.isEmpty then Option.none
  else Option.some ⟨item.name, item.title, text⟩

/-- All sections of a run. -/
def sectionsOf (env : EpubEnv) : List Section := env.items.filterMap sectionOfItem

/-- The warning literal of import_epub.py. -/
def noTextWarning : Str := "No se encontró texto en el EPUB".data

/-- Model of `warnings = []` plus the single append when no section survived. -/
def warningsOf (sections : List Section) : List Str :=
  if sections.isEmpty then [noTextWarning] else []

/-- The payload dict of import_epub.main, in insertion order. -/
def payloadJson (env : EpubEnv) : Json :=
  Json.obj
    [("title".data, match first_metadata (env.dcTitle.map (fun p => p.1)) with
        | Option.some t => Json.str t
        | Option.none => Json.null),
     ("language".data, match first_metadata (env.dcLanguage.map (fun p => p.1)) with
        | Option.some l => Json.str l
        | Option.none => Json.null),
     ("sections".data, Json.arr ((sectionsOf env).map sectionJson)),
     ("metadata".data, metadataJson (normalise_metadata env.metadata)),
     ("warnings".data, Json.arr ((warningsOf (sectionsOf env)).map Json.str))]

/-- import_epub.main: usage check, existence check, open, convert, dump.
On success the payload is written to stdout followed by a newline. -/
def main (argv : List Str) (env : EpubEnv) : RunResult :=
  if argv.length ≠ 2 then ⟨1, [], "Usage: import_epub.py <path-to-epub>\n".data⟩
  else if !env.pathExists then
    ⟨1, [], "File not found: ".data ++ argv.getD 1 [] ++ ['\n']⟩
  else if !env.openOk then
    ⟨1, [], "Unable to open EPUB: ".data ++ env.openErrMsg ++ ['\n']⟩
  else ⟨0, renderJson (payloadJson env) ++ ['\n'], []⟩

end ImportEpub

/-- A BeautifulSoup node: a NavigableString or a Tag with children. -/
inductive BNode where
  | text (s : Str)
  | elem (name : Str) (children : List BNode)

/-- The HTML elements the html.parser tree builder treats as empty
(they never take children). -/
def voidTags : List Str :=
  ["area".data, "base".data, "br".data, "col".data, "embed".data, "hr".data,
   "img".data, "input".data, "link".data, "meta".data, "param".data,
   "source".data, "track".data, "wbr".data]

/-- Append a finished node into the innermost open element (or the
top-level forest when no element is open). -/
def insertNode (stack : List (Str × List BNode)) (root : List BNode) (n : BNode) :
    List (Str × List BNode) × List BNode :=
  match stack with
  | [] => ([], root ++ [n])
  | (t, cs) :: up => ((t, cs ++ [n]) :: up, root)

/-- Whether some open element has the given name. -/
def hasOpen (name : Str) (stack : List (Str × List BNode)) : Bool :=
  stack.any (fun e => e.1 == name)

/-- Close open elements up to and including the first one named `name`
(BeautifulSoup pops to the matching tag, implicitly closing the
intervening open elements); `pending` is the already-closed innermost
element being attached on the way up. -/
def closeUntilCarry (name : Str) : BNode → List (Str × List BNode) → List BNode →
    List (Str × List BNode) × List BNode
  | pending, [], root => ([], root ++ [pending])
  | pending, (t, cs) :: up, root =>
    if t = name then insertNode up root (BNode.elem t (cs ++ [pending]))
    else closeUntilCarry name (BNode.elem t (cs ++ [pending])) up root

/-- At end of input every still-open element is closed in place. -/
def closeAllCarry : BNode → List (Str × List BNode) → List BNode → List BNode
  | pending, [], root => root ++ [pending]
  | pending, (t, cs) :: up, root => closeAllCarry (BNode.elem t (cs ++ [pending])) up root

/-- The html.parser tree builder of BeautifulSoup: start tags push an
open element (void elements are attached immediately), character data
is attached to the innermost open element, an end tag with no matching
open element is ignored, and a matching end tag closes up to its open
element. -/
def buildAux : List HEvent → List (Str × List BNode) → List BNode → List BNode
  | [], stack, root =>
    (match stack with
     | [] => root
     | (t, cs) :: up => closeAllCarry (BNode.elem t cs) up root)
  | e :: evs, stack, root =>
    match e with
    | HEvent.text s =>
      let p := insertNode stack root (BNode.text s)
      buildAux evs p.1 p.2
    | HEvent.stag t =>
      if t ∈ voidTags then
        let p := insertNode stack root (BNode.elem t [])
        buildAux evs p.1 p.2
      else buildAux evs ((t, []) :: stack) root
    | HEvent.etag t =>
      if hasOpen t stack then
        match stack with
        | [] => buildAux evs stack root
        | (t0, cs0) :: up =>
          if t0 = t then
            let p := insertNode up root (BNode.elem t0 cs0)
            buildAux evs p.1 p.2
          else
            let p := closeUntilCarry t (BNode.elem t0 cs0) up root
            buildAux evs p.1 p.2
      else buildAux evs stack root

/-- Model of `BeautifulSoup(content, "html.parser")` for a fragment: the
top-level forest of the parsed tree. -/
def buildSoup (content : Str) : List BNode := buildAux (tokenize content) [] []

/-- The selector `"script, style, footnote, sup"` of
epub_extract.extract_chapter. -/
def excludedTags : List Str := ["script".data, "style".data, "footnote".data, "sup".data]

mutual
/-- Model of `tag.decompose()` applied to every selected element of a forest:
each matching element is removed with its entire subtree (decomposing
an outer element also removes any matching inner one). -/
def decomposeExcluded : List BNode → List BNode
  | [] => []
  | n :: rest => decomposeNode n ++ decomposeExcluded rest

/-- One node after decomposition: dropped entirely when excluded, kept
with decomposed children otherwise. -/
def decomposeNode : BNode → List BNode
  | BNode.text s => [BNode.text s]
  | BNode.elem t cs =>
    if t ∈ excludedTags then [] else [BNode.elem t (decomposeExcluded cs)]
end

mutual
/-- All NavigableStrings of a forest in document order. -/
def textLeaves : List BNode → List Str
  | [] => []
  | n :: rest => textLeavesNode n ++ textLeaves rest

/-- All NavigableStrings below one node. -/
def textLeavesNode : BNode → List Str
  | BNode.text s => [s]
  | BNode.elem _ cs => textLeaves cs
end

mutual
/-- Model of `soup.find_all(["p", "div"])`: every p/div element of the forest in
document order, nested ones included. -/
def findAllPDiv : List BNode → List BNode
  | [] => []
  | n :: rest => findAllPDivNode n ++ findAllPDiv rest

/-- The p/div elements at or below one node, in document order. -/
def findAllPDivNode : BNode → List BNode
  | BNode.text _ => []
  | BNode.elem t cs =>
    (if t = "p".data ∨ t = "div".data then [BNode.elem t cs] else []) ++ findAllPDiv cs
end

mutual
/-- Model of `soup.title`: the first title element in document order, if any. -/
def findTitle : List BNode → Option BNode
  | [] => Option.none
  | n :: rest =>
    match findTitleNode n with
    | Option.some r => Option.some r
    | Option.none => findTitle rest

/-- The first title element at or below one node. -/
def findTitleNode : BNode → Option BNode
  | BNode.text _ => Option.none
  | BNode.elem t cs =>
    if t = "title".data then Option.some (BNode.elem t cs) else findTitle cs
end

mutual
/-- Model of `tag.string`: the single NavigableString child, through chains of
single-child tags; None as soon as a node has zero or several
children. -/
def nodeString : BNode → Option Str
  | BNode.text s => Option.some s
  | BNode.elem _ cs => nodeStringOfChildren cs

/-- The `.string` of a child list: defined only for a single child. -/
def nodeStringOfChildren : List BNode → Option Str
  | [c] => nodeString c
  | _ => Option.none
end

/-- Model of `tag.get_text(separator=" ")`: every descendant string joined by a
single space. -/
def getTextSep (n : BNode) : Str :=
  match n with
  | BNode.text s => s
  | BNode.elem _ cs => pyJoin [' '] (textLeaves cs)

namespace EpubExtract

/-- epub_extract.clean_paragraph: `CLEAN_RE.sub(" ", text).strip()`. -/
def clean_paragraph (text : Str) : Str := collapseStrip text

/-- One chapter dict of epub_extract: a title and the paragraph list. -/
structure Chapter where
  title : Str
  paragraphs : List Str
deriving DecidableEq

/-- epub_extract.extract_chapter: parse the body, decompose the
excluded elements, take the title from the title element when it has a
truthy string (else the item name), and collect the cleaned non-empty
p/div texts. -/
def extract_chapter (item : ImportEpub.EpubItem) : Chapter :=
  let soup := decomposeExcluded (buildSoup item.content)
  let title :=
    match findTitle soup with
    | Option.some tnode =>
      match nodeString tnode with
      | Option.some s => if s.isEmpty then item.name else pyStrip s
      | Option.none => item.name
    | Option.none => item.name
  let paragraphs := (findAllPDiv soup).filterMap (fun el =>
    let cleaned := clean_paragraph (getTextSep el)
    if cleaned.isEmpty then Option.none else Option.some cleaned)
  ⟨title, paragraphs⟩

/-- The chapter list of epub_extract.extract: one chapter per document
item, with no emptiness filter. -/
def chaptersOf (env : ImportEpub.EpubEnv) : List Chapter :=
  env.items.map extract_chapter

/-- The `{"ok": True, "chapters": ...}` payload of epub_extract. -/
def extractPayloadJson (env : ImportEpub.EpubEnv) : Json :=
  Json.obj
    [("ok".data, Json.bool true),
     ("chapters".data, Json.arr ((chaptersOf env).map (fun ch =>
        Json.obj [("title".data, Json.str ch.title),
          ("paragraphs".data, Json.arr (ch.paragraphs.map Json.str))])))]

/-- epub_extract.main, with `SystemExit(string)` printing to stderr and
exiting with status 1. -/
def main (argv : List Str) (env : ImportEpub.EpubEnv) : RunResult :=
  if argv.length ≠ 2 then ⟨1, [], "Uso: epub_extract.py <ruta_epub>\n".data⟩
  else if !env.pathExists then
    ⟨1, [], renderJson (PdfExtract.errorJson "EPUB_NOT_FOUND".data (argv.getD 1 [])) ++ ['\n']⟩
  else if !env.openOk then
    ⟨1, [], renderJson (PdfExtract.errorJson "EPUB_OPEN_FAIL".data env.openErrMsg) ++ ['\n']⟩
  else ⟨0, renderJson (extractPayloadJson env) ++ ['\n'], []⟩

end EpubExtract

/-- The fields of a JSON object. -/
def jsonFields : Json → List (Str × Json)
  | .obj fields => fields
  | _ => []

/-- The reading of claim C2 for one serialized Section, following the
canonical Document JSON shape of the specification: the section object
holds its paragraph content under a "paragraphs" key as a JSON array of
non-empty strings. -/
def sectionHasParagraphArray (sec : Section) : Prop :=
  ∃ ps : List Str, jsonGet (sectionJson sec) "paragraphs".data =
      Option.some (Json.arr (ps.map Json.str)) ∧ ∀ p ∈ ps, p ≠ []

example : PdfExtract.clean_text "Hel-\nlo world.\n\nSecond paragraph.".data =
    "Hello world.\n\nSecond paragraph.".data := by decide

example : PdfExtract.clean_text_blocks "a \n\n\n  b\nc\n\n".data =
    ["a".data, "b c".data] := by decide

example : spec_normalize "a \n\n\n  b\nc\n\n".data = ["a".data, "b c".data] := by decide

example : PdfExtract.clean_text "abc- \n\nxyz".data = "abc-\n\nxyz".data := by decide

example : PdfExtract.clean_text "abc-\n\nxyz".data = "abc xyz".data := by decide

theorem clean_text_blocks_eq (raw : Str) :
    PdfExtract.clean_text_blocks raw = normBlocks (splitNN (crToLf (dehyphen raw))) := rfl

theorem lstripWs_all (s : Str) : (lstripWs s).all isPySpace = s.all isPySpace := by
  induction s with
  | nil => rfl
  | cons c rest ih =>
    by_cases hc : isPySpace c = true
    · simp [lstripWs, hc, ih]
    · simp [lstripWs, hc]

theorem rstripWs_eq_nil_iff (s : Str) : rstripWs s = [] ↔ s.all isPySpace = true := by
  induction s with
  | nil => simp [rstripWs]
  | cons c rest ih =>
    by_cases h : rstripWs rest = [] ∧ isPySpace c = true
    · simp [rstripWs, h, h.2, ih.mp h.1]
    · rw [rstripWs]
      rw [if_neg h]
      simp only [List.all_cons, Bool.and_eq_true]
      constructor
      · intro hx
        exact absurd hx (List.cons_ne_nil c (rstripWs rest))
      · intro hx
        exact absurd ⟨ih.mpr hx.2, hx.1⟩ h

theorem pyStrip_eq_nil_iff (s : Str) : pyStrip s = [] ↔ s.all isPySpace = true := by
  rw [pyStrip, rstripWs_eq_nil_iff, lstripWs_all]

theorem msubAux_all (f : Bool) (s : Str) :
    (msubAux f s).all isPySpace = s.all isPySpace := by
  induction s generalizing f with
  | nil => rfl
  | cons c rest ih =>
    by_cases hc : isPySpace c = true
    · cases f <;>
        simp [msubAux, hc, ih, (by decide : isPySpace ' ' = true)]
    · simp [msubAux, hc, ih]

theorem collapseStrip_eq_nil_iff (s : Str) :
    collapseStrip s = [] ↔ s.all isPySpace = true := by
  rw [collapseStrip, multispaceSub, pyStrip_eq_nil_iff, msubAux_all]

theorem pyStrip_cons_ws {c : Char} (hc : isPySpace c = true) (s : Str) :
    pyStrip (c :: s) = pyStrip s := by
  simp [pyStrip, lstripWs, hc]

theorem pyStrip_msubAux (s : Str) :
    pyStrip (msubAux true s) = pyStrip (msubAux false s) := by
  cases s with
  | nil => rfl
  | cons c rest =>
    by_cases hc : isPySpace c = true
    · rw [show msubAux true (c :: rest) = msubAux true rest by simp [msubAux, hc]]
      rw [show msubAux false (c :: rest) = ' ' :: msubAux true rest by simp [msubAux, hc]]
      rw [pyStrip_cons_ws (by decide : isPySpace ' ' = true)]
    · simp [msubAux, hc]

theorem collapseStrip_cons_ws {c : Char} (hc : isPySpace c = true) (s : Str) :
    collapseStrip (c :: s) = collapseStrip s := by
  unfold collapseStrip multispaceSub
  rw [show msubAux false (c :: s) = ' ' :: msubAux true s by simp [msubAux, hc]]
  rw [pyStrip_cons_ws (by decide : isPySpace ' ' = true)]
  rw [pyStrip_msubAux]

theorem normBlocks_nil : normBlocks [] = [] := rfl

theorem normBlocks_cons (h : Str) (tl : List Str) :
    normBlocks (h :: tl) =
      (if pyStrip h = [] then [] else [collapseStrip h]) ++ normBlocks tl := by
  by_cases hh : pyStrip h = []
  · have hb : (pyStrip h != []) = false := by simp [hh]
    simp [normBlocks, List.filter_cons, hb, hh]
  · have hb : (pyStrip h != []) = true := by simp [hh]
    simp [normBlocks, List.filter_cons, hb, hh]

theorem map_collapseStrip_filter (L : List Str) :
    normBlocks L = (L.map collapseStrip).filter (fun b => b != []) := by
  induction L with
  | nil => rfl
  | cons h tl ih =>
    rw [normBlocks_cons, ih]
    by_cases hh : pyStrip h = []
    · have h2 : collapseStrip h = [] := by
        rw [collapseStrip_eq_nil_iff]
        exact (pyStrip_eq_nil_iff h).mp hh
      have hb : (collapseStrip h != []) = false := by simp [h2]
      simp [hh, List.filter_cons, hb]
    · have h2 : collapseStrip h ≠ [] := by
        rw [Ne, collapseStrip_eq_nil_iff]
        intro hx
        exact hh ((pyStrip_eq_nil_iff h).mpr hx)
      have hb : (collapseStrip h != []) = true := by simp [h2]
      simp [hh, List.filter_cons, hb]

theorem consHead_ne_nil (c : Char) (l : List Str) : consHead c l ≠ [] := by
  cases l <;> simp [consHead]

theorem splitNNPending_ne_nil (t : Str) : splitNNPending t ≠ [] := by
  cases t with
  | nil => simp [splitNNPending]
  | cons d r2 =>
    by_cases hd : d = '\n'
    · simp [splitNNPending, hd]
    · rw [splitNNPending, if_neg hd]
      exact consHead_ne_nil _ _

theorem splitNN_ne_nil (s : Str) : splitNN s ≠ [] := by
  cases s with
  | nil => simp [splitNN]
  | cons c rest =>
    by_cases hc : c = '\n'
    · rw [splitNN, if_pos hc]
      exact splitNNPending_ne_nil rest
    · rw [splitNN, if_neg hc]
      exact consHead_ne_nil _ _

theorem splitRunsPending_ne_nil (t : Str) : splitRunsPending t ≠ [] := by
  cases t with
  | nil => simp [splitRunsPending]
  | cons d r2 =>
    by_cases hd : d = '\n'
    · simp [splitRunsPending, hd]
    · rw [splitRunsPending, if_neg hd]
      exact consHead_ne_nil _ _

theorem splitRuns_ne_nil (s : Str) : splitRuns s ≠ [] := by
  cases s with
  | nil => simp [splitRuns]
  | cons c rest =>
    by_cases hc : c = '\n'
    · rw [splitRuns, if_pos hc]
      exact splitRunsPending_ne_nil rest
    · rw [splitRuns, if_neg hc]
      exact consHead_ne_nil _ _

theorem splitRunsSkip_ne_nil (s : Str) : splitRunsSkip s ≠ [] := by
  induction s with
  | nil => simp [splitRunsSkip]
  | cons c rest ih =>
    by_cases hc : c = '\n'
    · rw [splitRunsSkip, if_pos hc]
      exact ih
    · rw [splitRunsSkip, if_neg hc]
      exact consHead_ne_nil _ _

theorem consHead_tail (c : Char) {l : List Str} (h : l ≠ []) :
    (consHead c l).tail = l.tail := by
  cases l with
  | nil => exact absurd rfl h
  | cons b bs => rfl

theorem consHead_head {c : Char} {l : List Str} {b : Str} (h : l.head? = some b) :
    (consHead c l).head? = some (c :: b) := by
  cases l with
  | nil => simp at h
  | cons x xs =>
    simp at h
    simp [consHead, h]

theorem normBlocks_consHead_nl {l : List Str} (h : l ≠ []) :
    normBlocks (consHead '\n' l) = normBlocks l := by
  cases l with
  | nil => exact absurd rfl h
  | cons b bs =>
    rw [show consHead '\n' (b :: bs) = ('\n' :: b) :: bs from rfl]
    rw [normBlocks_cons, normBlocks_cons]
    rw [pyStrip_cons_ws (by decide : isPySpace '\n' = true)]
    rw [collapseStrip_cons_ws (by decide : isPySpace '\n' = true)]

theorem normBlocks_eq_of_head_tail {l1 l2 : List Str} (h1 : l1 ≠ []) (h2 : l2 ≠ [])
    (hh : l1.head? = l2.head?) (ht : normBlocks l1.tail = normBlocks l2.tail) :
    normBlocks l1 = normBlocks l2 := by
  cases l1 with
  | nil => exact absurd rfl h1
  | cons b bs =>
    cases l2 with
    | nil => exact absurd rfl h2
    | cons b2 bs2 =>
      simp only [List.head?_cons, Option.some.injEq] at hh
      simp only [List.tail_cons] at ht
      rw [hh, normBlocks_cons, normBlocks_cons, ht]

/-- The splitter `re.split(r"\n{2,}")` in its run-skipping and its pending state yield
the same live blocks as from the normal state (extra newlines only add
whitespace-only material, which the filter-and-collapse step erases). -/
theorem normBlocks_skip_pending :
    ∀ n, ∀ t : Str, t.length ≤ n →
      normBlocks (splitRunsSkip t) = normBlocks (splitRuns t) ∧
      normBlocks (splitRunsPending t) = normBlocks (splitRuns t) := by
  intro n
  induction n with
  | zero =>
    intro t ht
    have h0 : t = [] := List.length_eq_zero.mp (Nat.le_zero.mp ht)
    subst h0
    exact ⟨rfl, by decide⟩
  | succ n ih =>
    intro t ht
    cases t with
    | nil => exact ⟨rfl, by decide⟩
    | cons c rest =>
      have hrest : rest.length ≤ n := by
        have := ht
        simp only [List.length_cons] at this
        omega
      constructor
      · by_cases hc : c = '\n'
        · rw [show splitRunsSkip (c :: rest) = splitRunsSkip rest by
            rw [splitRunsSkip, if_pos hc]]
          rw [show splitRuns (c :: rest) = splitRunsPending rest by
            rw [splitRuns, if_pos hc]]
          rw [(ih rest hrest).1, (ih rest hrest).2]
        · rw [show splitRunsSkip (c :: rest) = consHead c (splitRuns rest) by
            rw [splitRunsSkip, if_neg hc]]
          rw [show splitRuns (c :: rest) = consHead c (splitRuns rest) by
            rw [splitRuns, if_neg hc]]
      · by_cases hc : c = '\n'
        · rw [show splitRunsPending (c :: rest) = [] :: splitRunsSkip rest by
            rw [splitRunsPending, if_pos hc]]
          rw [show splitRuns (c :: rest) = splitRunsPending rest by
            rw [splitRuns, if_pos hc]]
          rw [normBlocks_cons]
          simp only [pyStrip, lstripWs, rstripWs, if_pos, List.nil_append]
          rw [(ih rest hrest).1, (ih rest hrest).2]
        · rw [show splitRunsPending (c :: rest) = consHead '\n' (consHead c (splitRuns rest)) by
            rw [splitRunsPending, if_neg hc]]
          rw [normBlocks_consHead_nl (consHead_ne_nil _ _)]
          rw [show splitRuns (c :: rest) = consHead c (splitRuns rest) by
            rw [splitRuns, if_neg hc]]

/-- Core of claim C4: the exact-separator split of the source and the
two-or-more-newlines split of the specification agree block by block:
their first (possibly still open) blocks are identical and the live
blocks of their tails coincide after collapse-and-trim. -/
theorem splitNN_agrees_splitRuns :
    ∀ n, ∀ t : Str, t.length ≤ n →
      ((splitNN t).head? = (splitRuns t).head? ∧
        normBlocks (splitNN t).tail = normBlocks (splitRuns t).tail) ∧
      ((splitNNPending t).head? = (splitRunsPending t).head? ∧
        normBlocks (splitNNPending t).tail = normBlocks (splitRunsPending t).tail) := by
  intro n
  induction n with
  | zero =>
    intro t ht
    have h0 : t = [] := List.length_eq_zero.mp (Nat.le_zero.mp ht)
    subst h0
    exact ⟨⟨rfl, rfl⟩, ⟨rfl, rfl⟩⟩
  | succ n ih =>
    intro t ht
    cases t with
    | nil => exact ⟨⟨rfl, rfl⟩, ⟨rfl, rfl⟩⟩
    | cons c rest =>
      have hrest : rest.length ≤ n := by
        have := ht
        simp only [List.length_cons] at this
        omega
      obtain ⟨b, hb⟩ : ∃ b, (splitNN rest).head? = some b :=
        Option.ne_none_iff_exists'.mp
          (fun hx => splitNN_ne_nil rest (List.head?_eq_none_iff.mp hx))
      have hb2 : (splitRuns rest).head? = some b := ((ih rest hrest).1.1).symm ▸ hb
      constructor
      · by_cases hc : c = '\n'
        · rw [show splitNN (c :: rest) = splitNNPending rest by rw [splitNN, if_pos hc]]
          rw [show splitRuns (c :: rest) = splitRunsPending rest by rw [splitRuns, if_pos hc]]
          exact (ih rest hrest).2
        · rw [show splitNN (c :: rest) = consHead c (splitNN rest) by rw [splitNN, if_neg hc]]
          rw [show splitRuns (c :: rest) = consHead c (splitRuns rest) by
            rw [splitRuns, if_neg hc]]
          refine ⟨?_, ?_⟩
          · rw [consHead_head hb, consHead_head hb2]
          · rw [consHead_tail c (splitNN_ne_nil rest), consHead_tail c (splitRuns_ne_nil rest)]
            exact (ih rest hrest).1.2
      · by_cases hc : c = '\n'
        · rw [show splitNNPending (c :: rest) = [] :: splitNN rest by
            rw [splitNNPending, if_pos hc]]
          rw [show splitRunsPending (c :: rest) = [] :: splitRunsSkip rest by
            rw [splitRunsPending, if_pos hc]]
          refine ⟨rfl, ?_⟩
          simp only [List.tail_cons]
          have e1 : normBlocks (splitNN rest) = normBlocks (splitRuns rest) :=
            normBlocks_eq_of_head_tail (splitNN_ne_nil rest) (splitRuns_ne_nil rest)
              (ih rest hrest).1.1 (ih rest hrest).1.2
          rw [e1, (normBlocks_skip_pending rest.length rest le_rfl).1]
        · rw [show splitNNPending (c :: rest) = consHead '\n' (consHead c (splitNN rest)) by
            rw [splitNNPending, if_neg hc]]
          rw [show splitRunsPending (c :: rest) = consHead '\n' (consHead c (splitRuns rest)) by
            rw [splitRunsPending, if_neg hc]]
          refine ⟨?_, ?_⟩
          · rw [consHead_head (consHead_head hb), consHead_head (consHead_head hb2)]
          · rw [consHead_tail '\n' (consHead_ne_nil c (splitNN rest)),
              consHead_tail '\n' (consHead_ne_nil c (splitRuns rest)),
              consHead_tail c (splitNN_ne_nil rest), consHead_tail c (splitRuns_ne_nil rest)]
            exact (ih rest hrest).1.2

theorem normBlocks_splitNN_eq_splitRuns (t : Str) :
    normBlocks (splitNN t) = normBlocks (splitRuns t) :=
  normBlocks_eq_of_head_tail (splitNN_ne_nil t) (splitRuns_ne_nil t)
    (splitNN_agrees_splitRuns t.length t le_rfl).1.1
    (splitNN_agrees_splitRuns t.length t le_rfl).1.2

theorem headNotWs_lstripWs (s : Str) : headNotWs (lstripWs s) = true := by
  induction s with
  | nil => rfl
  | cons c rest ih =>
    by_cases hc : isPySpace c = true
    · rw [lstripWs, if_pos hc]; exact ih
    · rw [lstripWs, if_neg hc]
      simp [headNotWs, hc]

theorem lstripWs_of_headNotWs {s : Str} (h : headNotWs s = true) : lstripWs s = s := by
  cases s with
  | nil => rfl
  | cons c rest =>
    simp only [headNotWs, List.head?_cons, Bool.not_eq_true'] at h
    rw [lstripWs, if_neg (by simp [h])]

theorem rstripWs_head (s : Str) :
    rstripWs s = [] ∨ (rstripWs s).head? = s.head? := by
  cases s with
  | nil => exact Or.inl rfl
  | cons c rest =>
    by_cases h : rstripWs rest = [] ∧ isPySpace c = true
    · left; rw [rstripWs, if_pos h]
    · right; rw [rstripWs, if_neg h]; simp

theorem headNotWs_rstripWs {s : Str} (h : headNotWs s = true) :
    headNotWs (rstripWs s) = true := by
  rcases rstripWs_head s with h0 | h0
  · rw [h0]; rfl
  · rw [headNotWs, h0]
    rw [headNotWs] at h
    exact h

theorem rstripWs_idem (s : Str) : rstripWs (rstripWs s) = rstripWs s := by
  induction s with
  | nil => rfl
  | cons c rest ih =>
    by_cases h : rstripWs rest = [] ∧ isPySpace c = true
    · rw [rstripWs, if_pos h]; rfl
    · rw [rstripWs, if_neg h, rstripWs, ih, if_neg h]

theorem pyStrip_idem (s : Str) : pyStrip (pyStrip s) = pyStrip s := by
  rw [pyStrip, pyStrip]
  rw [lstripWs_of_headNotWs (headNotWs_rstripWs (headNotWs_lstripWs s))]
  exact rstripWs_idem _

theorem collapsed_msubAux (s : Str) :
    collapsed (msubAux false s) = true ∧ collapsed (msubAux true s) = true ∧
      headNotWs (msubAux true s) = true := by
  induction s with
  | nil => exact ⟨rfl, rfl, rfl⟩
  | cons c rest ih =>
    by_cases hc : isPySpace c = true
    · refine ⟨?_, ?_, ?_⟩
      · rw [show msubAux false (c :: rest) = ' ' :: msubAux true rest by simp [msubAux, hc]]
        rw [collapsed, if_pos (by decide : isPySpace ' ' = true)]
        simp [ih.2.1, ih.2.2]
      · rw [show msubAux true (c :: rest) = msubAux true rest by simp [msubAux, hc]]
        exact ih.2.1
      · rw [show msubAux true (c :: rest) = msubAux true rest by simp [msubAux, hc]]
        exact ih.2.2
    · have e : ∀ f, msubAux f (c :: rest) = c :: msubAux false rest := by
        intro f; simp [msubAux, hc]
      refine ⟨?_, ?_, ?_⟩
      · rw [e false, collapsed, if_neg hc]; simp [ih.1]
      · rw [e true, collapsed, if_neg hc]; simp [ih.1]
      · rw [e true, headNotWs]; simp [hc]

theorem collapsed_lstripWs {s : Str} (h : collapsed s = true) :
    collapsed (lstripWs s) = true := by
  cases s with
  | nil => rfl
  | cons c rest =>
    by_cases hc : isPySpace c = true
    · rw [collapsed, if_pos hc] at h
      simp only [Bool.and_eq_true, beq_iff_eq] at h
      rw [lstripWs, if_pos hc, lstripWs_of_headNotWs h.1.2]
      exact h.2
    · rw [lstripWs, if_neg hc]
      exact h

theorem collapsed_rstripWs {s : Str} (h : collapsed s = true) :
    collapsed (rstripWs s) = true := by
  induction s with
  | nil => rfl
  | cons c rest ih =>
    rw [collapsed, Bool.and_eq_true] at h
    by_cases hif : rstripWs rest = [] ∧ isPySpace c = true
    · rw [rstripWs, if_pos hif]; rfl
    · rw [rstripWs, if_neg hif, collapsed, Bool.and_eq_true]
      refine ⟨?_, ih h.2⟩
      by_cases hc : isPySpace c = true
      · rw [if_pos hc]
        rw [if_pos hc] at h
        have h1 := h.1
        simp only [Bool.and_eq_true, beq_iff_eq] at h1
        simp only [Bool.and_eq_true, beq_iff_eq]
        refine ⟨h1.1, ?_⟩
        rcases rstripWs_head rest with h0 | h0
        · rw [h0]; rfl
        · rw [headNotWs, h0]
          rw [headNotWs] at h1
          exact h1.2
      · rw [if_neg hc]

theorem msubAux_of_collapsed (s : Str) :
    (collapsed s = true → msubAux false s = s) ∧
      (collapsed s = true → headNotWs s = true → msubAux true s = s) := by
  induction s with
  | nil => exact ⟨fun _ => rfl, fun _ _ => rfl⟩
  | cons c rest ih =>
    rw [collapsed]
    constructor
    · intro h
      rw [Bool.and_eq_true] at h
      by_cases hc : isPySpace c = true
      · rw [if_pos hc] at h
        have h1 := h.1
        simp only [Bool.and_eq_true, beq_iff_eq] at h1
        rw [show msubAux false (c :: rest) = ' ' :: msubAux true rest by simp [msubAux, hc]]
        rw [ih.2 h.2 h1.2, h1.1]
      · rw [show msubAux false (c :: rest) = c :: msubAux false rest by simp [msubAux, hc]]
        rw [ih.1 h.2]
    · intro h hn
      rw [Bool.and_eq_true] at h
      rw [headNotWs, List.head?_cons, Bool.not_eq_true'] at hn
      rw [show msubAux true (c :: rest) = c :: msubAux false rest by simp [msubAux, hn]]
      rw [ih.1 h.2]

theorem multispaceSub_of_collapsed {s : Str} (h : collapsed s = true) :
    multispaceSub s = s :=
  (msubAux_of_collapsed s).1 h

theorem collapsed_collapseStrip (s : Str) : collapsed (collapseStrip s) = true :=
  collapsed_rstripWs (collapsed_lstripWs (collapsed_msubAux s).1)

theorem collapseStrip_idem (s : Str) :
    collapseStrip (collapseStrip s) = collapseStrip s := by
  conv_lhs => rw [collapseStrip, multispaceSub,
    (msubAux_of_collapsed (collapseStrip s)).1 (collapsed_collapseStrip s)]
  rw [collapseStrip, pyStrip_idem]

theorem mem_msubAux {x : Char} {f : Bool} {s : Str} (h : x ∈ msubAux f s) :
    x = ' ' ∨ isPySpace x = false := by
  induction s generalizing f with
  | nil => simp [msubAux] at h
  | cons c rest ih =>
    by_cases hc : isPySpace c = true
    · cases f with
      | false =>
        rw [show msubAux false (c :: rest) = ' ' :: msubAux true rest by
          simp [msubAux, hc]] at h
        rcases List.mem_cons.mp h with h0 | h0
        · exact Or.inl h0
        · exact ih h0
      | true =>
        rw [show msubAux true (c :: rest) = msubAux true rest by simp [msubAux, hc]] at h
        exact ih h
    · rw [show msubAux f (c :: rest) = c :: msubAux false rest by simp [msubAux, hc]] at h
      rcases List.mem_cons.mp h with h0 | h0
      · right; rw [h0]; simpa using hc
      · exact ih h0

theorem mem_lstripWs {x : Char} {s : Str} (h : x ∈ lstripWs s) : x ∈ s := by
  induction s with
  | nil => simp [lstripWs] at h
  | cons c rest ih =>
    by_cases hc : isPySpace c = true
    · rw [lstripWs, if_pos hc] at h
      exact List.mem_cons_of_mem c (ih h)
    · rwa [lstripWs, if_neg hc] at h

theorem mem_rstripWs {x : Char} {s : Str} (h : x ∈ rstripWs s) : x ∈ s := by
  induction s with
  | nil => simp [rstripWs] at h
  | cons c rest ih =>
    by_cases hif : rstripWs rest = [] ∧ isPySpace c = true
    · rw [rstripWs, if_pos hif] at h
      simp at h
    · rw [rstripWs, if_neg hif] at h
      rcases List.mem_cons.mp h with h0 | h0
      · exact h0 ▸ List.mem_cons_self c rest
      · exact List.mem_cons_of_mem c (ih h0)

theorem mem_collapseStrip {x : Char} {s : Str} (h : x ∈ collapseStrip s) :
    x = ' ' ∨ isPySpace x = false :=
  mem_msubAux (mem_lstripWs (mem_rstripWs h))

theorem nl_not_mem_collapseStrip (s : Str) : '\n' ∉ collapseStrip s := by
  intro h
  rcases mem_collapseStrip h with h0 | h0
  · exact absurd h0 (by decide)
  · exact absurd h0 (by decide)

theorem cr_not_mem_collapseStrip (s : Str) : '\r' ∉ collapseStrip s := by
  intro h
  rcases mem_collapseStrip h with h0 | h0
  · exact absurd h0 (by decide)
  · exact absurd h0 (by decide)

theorem dehyphen_fix (s : Str) :
    (noHyphenBreak s = true → dehyphen s = s) ∧
      (noHyphenBreak s = true → s.head? ≠ some '\n' → dehyphenPending s = '-' :: s) := by
  induction s with
  | nil => exact ⟨fun _ => rfl, fun _ _ => rfl⟩
  | cons c rest ih =>
    have hsplit : noHyphenBreak (c :: rest) = true →
        ¬(c = '-' ∧ rest.head? = some '\n') ∧ noHyphenBreak rest = true := by
      intro h
      rw [noHyphenBreak, Bool.and_eq_true, Bool.not_eq_true', Bool.and_eq_false_iff] at h
      refine ⟨?_, h.2⟩
      rintro ⟨hc, hr⟩
      rcases h.1 with h0 | h0
      · rw [hc] at h0; simp at h0
      · rw [hr] at h0; simp at h0
    constructor
    · intro h
      obtain ⟨hne, hrest⟩ := hsplit h
      by_cases hy : c = '-'
      · rw [dehyphen, if_pos hy, hy]
        exact (ih.2 hrest (fun hx => hne ⟨hy, hx⟩))
      · rw [dehyphen, if_neg hy, ih.1 hrest]
    · intro h hn
      obtain ⟨hne, hrest⟩ := hsplit h
      rw [List.head?_cons] at hn
      have hcn : ¬ c = '\n' := fun hx => hn (by rw [hx])
      by_cases hy : c = '-'
      · rw [dehyphenPending, if_neg hcn, if_pos hy, hy]
        rw [ih.2 hrest (fun hx => hne ⟨hy, hx⟩)]
      · rw [dehyphenPending, if_neg hcn, if_neg hy, ih.1 hrest]

theorem crToLf_of_no_cr {s : Str} (h : '\r' ∉ s) : crToLf s = s := by
  induction s with
  | nil => rfl
  | cons c rest ih =>
    have hc : ¬ c = '\r' := fun hx => h (hx ▸ List.mem_cons_self c rest)
    rw [crToLf, List.map_cons, if_neg hc]
    have := ih (fun hx => h (List.mem_cons_of_mem c hx))
    rw [crToLf] at this
    rw [this]

theorem pyJoin_cons {sep p : Str} {ps : List Str} (h : ps ≠ []) :
    pyJoin sep (p :: ps) = p ++ sep ++ pyJoin sep ps := by
  cases ps with
  | nil => exact absurd rfl h
  | cons q qs => rfl

theorem mem_pyJoin {x : Char} {sep : Str} {ps : List Str} (h : x ∈ pyJoin sep ps) :
    x ∈ sep ∨ ∃ p ∈ ps, x ∈ p := by
  induction ps with
  | nil => simp [pyJoin] at h
  | cons p qs ih =>
    cases qs with
    | nil =>
      right; exact ⟨p, List.mem_cons_self p [], h⟩
    | cons q qs2 =>
      rw [pyJoin_cons (by simp)] at h
      rcases List.mem_append.mp h with h0 | h0
      · rcases List.mem_append.mp h0 with h1 | h1
        · right; exact ⟨p, List.mem_cons_self p _, h1⟩
        · exact Or.inl h1
      · rcases ih h0 with h1 | ⟨r, hr, hxr⟩
        · exact Or.inl h1
        · right; exact ⟨r, List.mem_cons_of_mem p hr, hxr⟩

theorem splitNN_of_no_nl {p : Str} (h : '\n' ∉ p) : splitNN p = [p] := by
  induction p with
  | nil => rfl
  | cons c rest ih =>
    have hc : ¬ c = '\n' := fun hx => h (hx ▸ List.mem_cons_self c rest)
    rw [splitNN, if_neg hc, ih (fun hx => h (List.mem_cons_of_mem c hx))]
    rfl

theorem splitNN_append_sep {p : Str} (s : Str) (h : '\n' ∉ p) :
    splitNN (p ++ '\n' :: '\n' :: s) = p :: splitNN s := by
  induction p with
  | nil =>
    rw [List.nil_append, splitNN, if_pos rfl, splitNNPending, if_pos rfl]
  | cons c rest ih =>
    have hc : ¬ c = '\n' := fun hx => h (hx ▸ List.mem_cons_self c rest)
    rw [List.cons_append, splitNN, if_neg hc,
      ih (fun hx => h (List.mem_cons_of_mem c hx))]
    rfl

theorem splitNN_pyJoin {ps : List Str} (hps : ps ≠ [])
    (h : ∀ p ∈ ps, '\n' ∉ p) :
    splitNN (pyJoin ['\n', '\n'] ps) = ps := by
  induction ps with
  | nil => exact absurd rfl hps
  | cons p qs ih =>
    cases qs with
    | nil =>
      exact splitNN_of_no_nl (h p (List.mem_cons_self p []))
    | cons q qs2 =>
      rw [pyJoin_cons (by simp), List.append_assoc, List.cons_append, List.cons_append,
        List.nil_append]
      rw [splitNN_append_sep _ (h p (List.mem_cons_self p _))]
      rw [ih (by simp) (fun r hr => h r (List.mem_cons_of_mem p hr))]

theorem normBlocks_fixed {ps : List Str}
    (h : ∀ p ∈ ps, pyStrip p ≠ [] ∧ collapseStrip p = p) :
    normBlocks ps = ps := by
  induction ps with
  | nil => rfl
  | cons p qs ih =>
    rw [normBlocks_cons, if_neg (h p (List.mem_cons_self p _)).1,
      (h p (List.mem_cons_self p _)).2,
      ih (fun r hr => h r (List.mem_cons_of_mem p hr))]
    rfl

theorem mem_normBlocks {x : Str} {L : List Str} (h : x ∈ normBlocks L) :
    ∃ b, x = collapseStrip b ∧ pyStrip b ≠ [] := by
  rw [normBlocks] at h
  rcases List.mem_map.mp h with ⟨b, hb, hxb⟩
  have hf := List.of_mem_filter hb
  exact ⟨b, hxb.symm, by simpa using hf⟩

/-- Every paragraph produced by pdf_extract.clean_text is non-empty, is a
fixed point of collapse-and-trim, and contains no newline and no
carriage return. -/
theorem clean_text_blocks_shape {raw p : Str}
    (h : p ∈ PdfExtract.clean_text_blocks raw) :
    pyStrip p ≠ [] ∧ collapseStrip p = p ∧ '\n' ∉ p ∧ '\r' ∉ p := by
  rw [clean_text_blocks_eq] at h
  obtain ⟨b, rfl, hb⟩ := mem_normBlocks h
  refine ⟨?_, collapseStrip_idem b, nl_not_mem_collapseStrip b, cr_not_mem_collapseStrip b⟩
  rw [Ne, pyStrip_eq_nil_iff, ← collapseStrip_eq_nil_iff]
  rw [collapseStrip_idem b]
  rw [Ne, pyStrip_eq_nil_iff, ← collapseStrip_eq_nil_iff] at hb
  exact hb

theorem clean_text_idem_of_noHyphenBreak (raw : Str)
    (h : noHyphenBreak (PdfExtract.clean_text raw) = true) :
    PdfExtract.clean_text (PdfExtract.clean_text raw) = PdfExtract.clean_text raw := by
  rcases hps : PdfExtract.clean_text_blocks raw with _ | ⟨p, qs⟩
  · have h0 : PdfExtract.clean_text raw = [] := by
      rw [PdfExtract.clean_text, hps]
      rfl
    rw [h0]
    decide
  · have hshape : ∀ r ∈ p :: qs, pyStrip r ≠ [] ∧ collapseStrip r = r ∧
        '\n' ∉ r ∧ '\r' ∉ r := by
      intro r hr
      exact clean_text_blocks_shape (by rw [hps]; exact hr)
    have hy : PdfExtract.clean_text raw = pyJoin ['\n', '\n'] (p :: qs) := by
      rw [PdfExtract.clean_text, hps]
    rw [hy] at h ⊢
    conv_lhs => rw [PdfExtract.clean_text, PdfExtract.clean_text_blocks]
    rw [(dehyphen_fix _).1 h]
    rw [crToLf_of_no_cr (fun hx => by
      rcases mem_pyJoin hx with h0 | ⟨r, hr, hxr⟩
      · simp at h0
      · exact (hshape r hr).2.2.2 hxr)]
    rw [splitNN_pyJoin (by simp) (fun r hr => (hshape r hr).2.2.1)]
    rw [show (((p :: qs).filter (fun b => pyStrip b != [])).map collapseStrip) =
      normBlocks (p :: qs) from rfl]
    rw [normBlocks_fixed (fun r hr => ⟨(hshape r hr).1, (hshape r hr).2.1⟩)]

example : convertCharrefs "a &amp;amp; b".data = "a &amp; b".data := by decide

example : convertCharrefs "x&lt;y &#65; z".data = "x<y A z".data := by decide

example : tokenize "<p>Hello</p>".data =
    [HEvent.stag "p".data, HEvent.text "Hello".data, HEvent.etag "p".data] := by decide

example : tokenize "<script><script>x</script>y</script>".data =
    [HEvent.stag "script".data, HEvent.text "<script>x".data, HEvent.etag "script".data,
      HEvent.text "y".data, HEvent.etag "script".data] := by decide

example : pySplitlines "\n\n\nHello\n".data = ["".data, "".data, "".data, "Hello".data] := by
  decide

example : ImportEpub.html_to_text "<p></p><p>Hello</p>".data = "Hello".data := by decide


theorem digitChar_ne_nl (n : Nat) : digitChar n ≠ '\n' := by
  unfold digitChar
  split <;> decide

theorem natDigits_noNL (n : Nat) : '\n' ∉ natDigits n := by
  induction n using Nat.strong_induction_on with
  | _ n ih =>
    unfold natDigits
    by_cases h : n < 10
    · rw [dif_pos h]
      intro hx
      exact digitChar_ne_nl n (List.mem_singleton.mp hx).symm
    · rw [dif_neg h]
      intro hx
      rcases List.mem_append.mp hx with h0 | h0
      · exact ih (n / 10) (Nat.div_lt_self (by omega) (by omega)) h0
      · exact digitChar_ne_nl (n % 10) (List.mem_singleton.mp h0).symm

theorem renderInt_noNL (n : Int) : '\n' ∉ renderInt n := by
  rw [renderInt]
  by_cases h : n < 0
  · rw [if_pos h]
    intro hx
    rcases List.mem_cons.mp hx with h0 | h0
    · exact absurd h0 (by decide)
    · exact natDigits_noNL _ h0
  · rw [if_neg h]
    exact natDigits_noNL _

theorem escChar_noNL (c : Char) : '\n' ∉ escChar c := by
  unfold escChar
  by_cases h1 : c = '"'
  · rw [if_pos h1]; decide
  rw [if_neg h1]
  by_cases h2 : c = '\\'
  · rw [if_pos h2]; decide
  rw [if_neg h2]
  by_cases h3 : c = '\n'
  · rw [if_pos h3]; decide
  rw [if_neg h3]
  by_cases h4 : c = '\r'
  · rw [if_pos h4]; decide
  rw [if_neg h4]
  by_cases h5 : c = '\t'
  · rw [if_pos h5]; decide
  rw [if_neg h5]
  by_cases h6 : c = '\x08'
  · rw [if_pos h6]; decide
  rw [if_neg h6]
  by_cases h7 : c = '\x0c'
  · rw [if_pos h7]; decide
  rw [if_neg h7]
  by_cases h8 : c.val < 0x20
  · rw [if_pos h8]
    intro hx
    rcases List.mem_cons.mp hx with h0 | hx
    · exact absurd h0 (by decide)
    rcases List.mem_cons.mp hx with h0 | hx
    · exact absurd h0 (by decide)
    rcases List.mem_cons.mp hx with h0 | hx
    · exact absurd h0 (by decide)
    rcases List.mem_cons.mp hx with h0 | hx
    · exact absurd h0 (by decide)
    rcases List.mem_cons.mp hx with h0 | hx
    · exact digitChar_ne_nl _ h0.symm
    rcases List.mem_cons.mp hx with h0 | hx
    · exact digitChar_ne_nl _ h0.symm
    · simp at hx
  · rw [if_neg h8]
    intro hx
    exact h3 (List.mem_singleton.mp hx).symm

theorem escapeStr_noNL (s : Str) : '\n' ∉ escapeStr s := by
  intro hx
  rw [escapeStr] at hx
  rcases List.mem_flatten.mp hx with ⟨l, hl, hxl⟩
  rcases List.mem_map.mp hl with ⟨c, _, rfl⟩
  exact escChar_noNL c hxl

theorem renderQuoted_noNL (s : Str) : '\n' ∉ renderQuoted s := by
  intro hx
  rw [renderQuoted] at hx
  rcases List.mem_cons.mp hx with h0 | h0
  · exact absurd h0 (by decide)
  rcases List.mem_append.mp h0 with h1 | h1
  · exact escapeStr_noNL s h1
  · simp at h1

mutual
theorem renderJson_noNL : ∀ (j : Json), '\n' ∉ renderJson j
  | Json.null => by decide
  | Json.bool true => by decide
  | Json.bool false => by decide
  | Json.num n => renderInt_noNL n
  | Json.str s => renderQuoted_noNL s
  | Json.arr items => by
    intro hx
    rw [show renderJson (Json.arr items) = '[' :: renderItems items ++ [']'] from rfl] at hx
    rcases List.mem_cons.mp hx with h0 | h0
    · exact absurd h0 (by decide)
    rcases List.mem_append.mp h0 with h1 | h1
    · exact renderItems_noNL items h1
    · simp at h1
  | Json.obj fields => by
    intro hx
    rw [show renderJson (Json.obj fields) = '{' :: renderFields fields ++ ['}'] from rfl] at hx
    rcases List.mem_cons.mp hx with h0 | h0
    · exact absurd h0 (by decide)
    rcases List.mem_append.mp h0 with h1 | h1
    · exact renderFields_noNL fields h1
    · simp at h1

theorem renderItems_noNL : ∀ (L : List Json), '\n' ∉ renderItems L
  | [] => by decide
  | [x] => by
    intro hx
    exact renderJson_noNL x (by simpa [renderItems] using hx)
  | x :: y :: xs => by
    intro hx
    rw [show renderItems (x :: y :: xs) =
      renderJson x ++ ',' :: ' ' :: renderItems (y :: xs) from rfl] at hx
    rcases List.mem_append.mp hx with h0 | h0
    · exact renderJson_noNL x h0
    rcases List.mem_cons.mp h0 with h1 | h1
    · exact absurd h1 (by decide)
    rcases List.mem_cons.mp h1 with h2 | h2
    · exact absurd h2 (by decide)
    · exact renderItems_noNL (y :: xs) h2

theorem renderFields_noNL : ∀ (L : List (Str × Json)), '\n' ∉ renderFields L
  | [] => by decide
  | [(k, v)] => by
    intro hx
    rw [show renderFields [(k, v)] = renderQuoted k ++ ':' :: ' ' :: renderJson v from rfl] at hx
    rcases List.mem_append.mp hx with h0 | h0
    · exact renderQuoted_noNL k h0
    rcases List.mem_cons.mp h0 with h1 | h1
    · exact absurd h1 (by decide)
    rcases List.mem_cons.mp h1 with h2 | h2
    · exact absurd h2 (by decide)
    · exact renderJson_noNL v h2
  | (k, v) :: f2 :: fs => by
    intro hx
    rw [show renderFields ((k, v) :: f2 :: fs) =
      renderQuoted k ++ ':' :: ' ' :: renderJson v ++ ',' :: ' ' :: renderFields (f2 :: fs)
      from rfl] at hx
    rcases List.mem_append.mp hx with h0 | h0
    · rcases List.mem_append.mp h0 with h1 | h1
      · exact renderQuoted_noNL k h1
      rcases List.mem_cons.mp h1 with h2 | h2
      · exact absurd h2 (by decide)
      rcases List.mem_cons.mp h2 with h3 | h3
      · exact absurd h3 (by decide)
      · exact renderJson_noNL v h3
    · rcases List.mem_cons.mp h0 with h1 | h1
      · exact absurd h1 (by decide)
      rcases List.mem_cons.mp h1 with h2 | h2
      · exact absurd h2 (by decide)
      · exact renderFields_noNL (f2 :: fs) h2
end

/-- Escaping: `json.dump(..., ensure_ascii=False)` writes every printable
character other than the quote and the backslash literally — non-ASCII
characters are not escaped. -/
theorem escChar_literal {c : Char} (h1 : 0x20 ≤ c.val) (h2 : c ≠ '"') (h3 : c ≠ '\\') :
    escChar c = [c] := by
  have hn : ∀ d : Char, d.val < 0x20 → c ≠ d := by
    intro d hd he
    subst he
    exact absurd hd (UInt32.not_lt.mpr h1)
  unfold escChar
  rw [if_neg h2, if_neg h3, if_neg (hn '\n' (by decide)), if_neg (hn '\r' (by decide)),
    if_neg (hn '\t' (by decide)), if_neg (hn '\x08' (by decide)),
    if_neg (hn '\x0c' (by decide)), if_neg (UInt32.not_lt.mpr h1)]

theorem warnings_spec (msg : Str) (sections : List Section) :
    ((if sections.isEmpty then [msg] else []) ≠ [] ↔ sections = []) ∧
    (sections = [] → (if sections.isEmpty then [msg] else []) = [msg]) := by
  cases sections <;> simp

/-- C1: for every Document emitted on a successful run of either
importer, the warnings list is non-empty iff the sections list is
empty, and when the sections list is empty the warnings list is exactly
the single no-text warning string; the emitted payload carries exactly
these two lists. -/
theorem claim_C1_warnings_iff_empty_sections (envP : PdfEnv) (envE : ImportEpub.EpubEnv) :
    ((ImportPdf.warningsOf (ImportPdf.sectionsOf envP) ≠ []) ↔
      ImportPdf.sectionsOf envP = []) ∧
    (ImportPdf.sectionsOf envP = [] →
      ImportPdf.warningsOf (ImportPdf.sectionsOf envP) = [ImportPdf.noTextWarning]) ∧
    jsonGet (ImportPdf.payloadJson envP) "warnings".data =
      Option.some (Json.arr ((ImportPdf.warningsOf (ImportPdf.sectionsOf envP)).map
        Json.str)) ∧
    ((ImportEpub.warningsOf (ImportEpub.sectionsOf envE) ≠ []) ↔
      ImportEpub.sectionsOf envE = []) ∧
    (ImportEpub.sectionsOf envE = [] →
      ImportEpub.warningsOf (ImportEpub.sectionsOf envE) = [ImportEpub.noTextWarning]) ∧
    jsonGet (ImportEpub.payloadJson envE) "warnings".data =
      Option.some (Json.arr ((ImportEpub.warningsOf (ImportEpub.sectionsOf envE)).map
        Json.str)) :=
  ⟨(warnings_spec ImportPdf.noTextWarning (ImportPdf.sectionsOf envP)).1,
   (warnings_spec ImportPdf.noTextWarning (ImportPdf.sectionsOf envP)).2,
   rfl,
   (warnings_spec ImportEpub.noTextWarning (ImportEpub.sectionsOf envE)).1,
   (warnings_spec ImportEpub.noTextWarning (ImportEpub.sectionsOf envE)).2,
   rfl⟩

theorem claim_C1_witness :
    ImportPdf.warningsOf (ImportPdf.sectionsOf ⟨true, true, [], [], [], []⟩) =
      [ImportPdf.noTextWarning] ∧
    ImportEpub.warningsOf (ImportEpub.sectionsOf ⟨true, true, [], [], [], [], []⟩) =
      [ImportEpub.noTextWarning] :=
  ⟨(claim_C1_warnings_iff_empty_sections ⟨true, true, [], [], [], []⟩
      ⟨true, true, [], [], [], [], []⟩).2.1 (by rfl),
   (claim_C1_warnings_iff_empty_sections ⟨true, true, [], [], [], []⟩
      ⟨true, true, [], [], [], [], []⟩).2.2.2.2.1 (by rfl)⟩

/-- C2 counterexample: the importers serialize a Section as
`{id, heading, content}` with `content` a single string; the section
object has no "paragraphs" key at all, so the claimed shape (paragraph
content as an ordered list of non-empty strings) fails already on the
section `{id: "1", heading: null, content: "Hello"}`. -/
theorem claim_C2_counterexample :
    ¬ sectionHasParagraphArray ⟨"1".data, Option.none, "Hello".data⟩ := by
  rintro ⟨ps, h, _⟩
  have h0 : jsonGet (sectionJson ⟨"1".data, Option.none, "Hello".data⟩)
      "paragraphs".data = Option.none := by rfl
  rw [h0] at h
  cases h

/-- C2 amended: on success each importer writes to stdout one JSON
object (a single line: the rendering contains no newline, followed by
one final newline) with exactly the keys
{title, language, sections, metadata, warnings}; each Section is
serialized as an object with exactly the keys {id, heading, content},
where id is a string, heading a string or null, and content the
extracted text as one single string (not a list of paragraphs); and
every printable character other than the quote and backslash — in
particular every non-ASCII character — is emitted literally. -/
theorem claim_C2_amended_serialization (envP : PdfEnv) (envE : ImportEpub.EpubEnv)
    (prog pathP pathE : Str) (sec : Section) :
    jsonKeys (ImportPdf.payloadJson envP) =
      ["title".data, "language".data, "sections".data, "metadata".data, "warnings".data] ∧
    jsonKeys (ImportEpub.payloadJson envE) =
      ["title".data, "language".data, "sections".data, "metadata".data, "warnings".data] ∧
    jsonKeys (sectionJson sec) = ["id".data, "heading".data, "content".data] ∧
    jsonGet (sectionJson sec) "id".data = Option.some (Json.str sec.id) ∧
    jsonGet (sectionJson sec) "content".data = Option.some (Json.str sec.content) ∧
    (sec.heading = Option.none →
      jsonGet (sectionJson sec) "heading".data = Option.some Json.null) ∧
    (∀ hd, sec.heading = Option.some hd →
      jsonGet (sectionJson sec) "heading".data = Option.some (Json.str hd)) ∧
    jsonGet (ImportPdf.payloadJson envP) "sections".data =
      Option.some (Json.arr ((ImportPdf.sectionsOf envP).map sectionJson)) ∧
    jsonGet (ImportEpub.payloadJson envE) "sections".data =
      Option.some (Json.arr ((ImportEpub.sectionsOf envE).map sectionJson)) ∧
    (envP.pathExists = true → envP.openOk = true →
      ImportPdf.main [prog, pathP] envP =
        ⟨0, renderJson (ImportPdf.payloadJson envP) ++ ['\n'], []⟩) ∧
    (envE.pathExists = true → envE.openOk = true →
      ImportEpub.main [prog, pathE] envE =
        ⟨0, renderJson (ImportEpub.payloadJson envE) ++ ['\n'], []⟩) ∧
    '\n' ∉ renderJson (ImportPdf.payloadJson envP) ∧
    '\n' ∉ renderJson (ImportEpub.payloadJson envE) ∧
    (∀ c : Char, 0x20 ≤ c.val → c ≠ '"' → c ≠ '\\' → escChar c = [c]) := by
  refine ⟨rfl, rfl, rfl, rfl, rfl, ?_, ?_, rfl, rfl, ?_, ?_,
    renderJson_noNL _, renderJson_noNL _, fun c h1 h2 h3 => escChar_literal h1 h2 h3⟩
  · intro hhd
    have he : jsonGet (sectionJson sec) "heading".data =
        Option.some (match sec.heading with
          | Option.some h => Json.str h
          | Option.none => Json.null) := rfl
    rw [he, hhd]
  · intro hd hhd
    have he : jsonGet (sectionJson sec) "heading".data =
        Option.some (match sec.heading with
          | Option.some h => Json.str h
          | Option.none => Json.null) := rfl
    rw [he, hhd]
  · intro h1 h2
    rw [ImportPdf.main, if_neg (by simp), if_neg (by simp [h1]), if_neg (by simp [h2])]
  · intro h1 h2
    rw [ImportEpub.main, if_neg (by simp), if_neg (by simp [h1]), if_neg (by simp [h2])]

theorem claim_C2_witness :
    ImportPdf.main ["i".data, "x.pdf".data] ⟨true, true, [], ["Hi".data], [], "x".data⟩ =
      ⟨0, renderJson (ImportPdf.payloadJson
        ⟨true, true, [], ["Hi".data], [], "x".data⟩) ++ ['\n'], []⟩ ∧
    jsonKeys (sectionJson ⟨"1".data, Option.none, "Hi".data⟩) =
      ["id".data, "heading".data, "content".data] :=
  ⟨(claim_C2_amended_serialization ⟨true, true, [], ["Hi".data], [], "x".data⟩
      ⟨true, true, [], [], [], [], []⟩ "i".data "x.pdf".data "e.epub".data
      ⟨"1".data, Option.none, "Hi".data⟩).2.2.2.2.2.2.2.2.2.1 rfl rfl,
   (claim_C2_amended_serialization ⟨true, true, [], ["Hi".data], [], "x".data⟩
      ⟨true, true, [], [], [], [], []⟩ "i".data "x.pdf".data "e.epub".data
      ⟨"1".data, Option.none, "Hi".data⟩).2.2.1⟩

/-- C3 counterexample: import_epub.normalise_metadata does not flatten:
for the book metadata {"DC": {"title": [("T", {})]}} the emitted
metadata mapping binds "DC" to a nested object whose "title" value is a
list — a non-scalar value in the metadata mapping of the emitted
Document. -/
theorem claim_C3_counterexample :
    jsonGet (ImportEpub.metadataJson (ImportEpub.normalise_metadata
        [("DC".data, [("title".data, [("T".data, [])])])])) "DC".data =
      Option.some (Json.obj [("title".data, Json.arr [Json.str "T".data])]) ∧
    isScalarJson (Json.obj [("title".data, Json.arr [Json.str "T".data])]) = false :=
  ⟨rfl, rfl⟩

/-- C3 amended: the PDF importer's flattened metadata only ever holds
scalar-or-null values (aggregates are omitted, not stringified), but
the EPUB importer does not flatten at all: every value in its metadata
mapping is a namespace object whose values are arrays of the entries'
first components. -/
theorem claim_C3_amended_metadata_values (md : List (Str × PyVal))
    (emd : List (Str × List (Str × List (Str × List (Str × Str))))) :
    (∀ kv ∈ ImportPdf.normalise_metadata md,
      isScalarPyVal kv.2 = true ∧ isScalarJson (pyValJson kv.2) = true) ∧
    (∀ kv ∈ jsonFields (ImportEpub.metadataJson (ImportEpub.normalise_metadata emd)),
      ∃ fs, kv.2 = Json.obj fs ∧ ∀ e ∈ fs, ∃ xs, e.2 = Json.arr xs) := by
  constructor
  · intro kv hkv
    have hs := List.of_mem_filter hkv
    refine ⟨hs, ?_⟩
    rcases kv with ⟨k, v⟩
    cases v
    · rfl
    · rfl
    · rfl
    · rfl
    · exact absurd hs (by simp [isScalarPyVal])
    · exact absurd hs (by simp [isScalarPyVal])
  · intro kv hkv
    rw [show jsonFields (ImportEpub.metadataJson (ImportEpub.normalise_metadata emd)) =
      (ImportEpub.normalise_metadata emd).map (fun ns =>
        (ns.1, Json.obj (ns.2.map (fun nm =>
          (nm.1, Json.arr (nm.2.map Json.str)))))) from rfl] at hkv
    rcases List.mem_map.mp hkv with ⟨ns, _, rfl⟩
    refine ⟨ns.2.map (fun nm => (nm.1, Json.arr (nm.2.map Json.str))), rfl, ?_⟩
    intro e he
    rcases List.mem_map.mp he with ⟨nm, _, rfl⟩
    exact ⟨nm.2.map Json.str, rfl⟩

theorem claim_C3_witness :
    ∀ kv ∈ ImportPdf.normalise_metadata
        [("title".data, PyVal.str "T".data), ("k".data, PyVal.list [])],
      isScalarPyVal kv.2 = true ∧ isScalarJson (pyValJson kv.2) = true :=
  (claim_C3_amended_metadata_values
    [("title".data, PyVal.str "T".data), ("k".data, PyVal.list [])] []).1

/-- C4: for every input string the Text Normalizer of pdf_extract
(delete `-\n`, normalise carriage returns, split, collapse, trim, drop
blank blocks) produces exactly the paragraph sequence described by the
specification, which splits on runs of two or more newlines where the
code splits on the literal `"\n\n"`: the two procedures agree on every
input. -/
theorem claim_C4_normalizer_matches_spec (raw : Str) :
    PdfExtract.clean_text_blocks raw = spec_normalize raw := by
  rw [clean_text_blocks_eq, spec_normalize, ← map_collapseStrip_filter]
  exact normBlocks_splitNN_eq_splitRuns _

/-- C5 counterexample: on the claim's own example fragment
`<script><script>x</script>y</script>` the import_epub extractor (the
streaming Markup Segmenter) emits the characters `<script>xy` — the
TextExtractor has no exclusion at all, and html.parser reads the script
content as raw text up to the first close tag. -/
theorem claim_C5_counterexample :
    ImportEpub.html_to_text "<script><script>x</script>y</script>".data =
      "<script>xy".data ∧ "<script>xy".data ≠ ([] : Str) :=
  ⟨by rfl, by decide⟩

/-- C5 amended: the import_epub extractor performs no exclusion
(script character data reaches the output), while epub_extract removes
decomposed subtrees entirely — nested non-raw-text excluded tags such
as sup are fully excluded — but script parses as raw text, so in
`<script><script>x</script>y</script>` the inner start tag does not
nest: `x` is dropped with the script element while `y` falls outside it
and is emitted. -/
theorem claim_C5_amended_exclusion :
    ImportEpub.html_to_text "<script><script>x</script>y</script>".data =
      "<script>xy".data ∧
    ImportEpub.html_to_text_lines "<p>a<script>boo</script>b</p>".data = ["aboob".data] ∧
    (EpubExtract.extract_chapter ⟨"ch1".data, Option.none,
      "<p><script><script>x</script>y</script></p>".data⟩).paragraphs = ["y".data] ∧
    (EpubExtract.extract_chapter ⟨"ch1".data, Option.none,
      "<p>a<script>alert(1)</script>b</p>".data⟩).paragraphs = ["a b".data] ∧
    (EpubExtract.extract_chapter ⟨"ch1".data, Option.none,
      "<p>a<sup>b<sup>c</sup>d</sup>e</p>".data⟩).paragraphs = ["a e".data] :=
  ⟨by rfl, by rfl, by rfl, by rfl, by rfl⟩

/-- C6 counterexample: for a MarkupFragment with no title element
(`<p>Hello</p>`, unit name "ch1", no declared title) the claim requires
heading = the unit name "ch1"; import_epub emits the section with
heading null instead (it uses the item's declared title attribute and
never falls back to the unit name). -/
theorem claim_C6_counterexample :
    ImportEpub.sectionOfItem ⟨"ch1".data, Option.none, "<p>Hello</p>".data⟩ =
      Option.some ⟨"ch1".data, Option.none, "Hello".data⟩ ∧
    findTitle (decomposeExcluded (buildSoup "<p>Hello</p>".data)) = Option.none ∧
    (Option.none : Option Str) ≠ Option.some "ch1".data :=
  ⟨by rfl, by rfl, by decide⟩

/-- C6 amended: a PlainText unit at 1-based position n yields id = n as
a decimal string and no heading, and yields no Section iff its stripped
text is empty; a MarkupFragment unit in import_epub yields id = the
unit name and heading = the item's declared title attribute (null when
absent — not the extracted title, and with no unit-name fallback), and
yields no Section iff the extracted text is empty; epub_extract
materializes one chapter per unit even when its paragraph list is
empty, and its chapter title falls back to the unit name when the
fragment has no title element. -/
theorem claim_C6_amended_section_builder (page : Str) (index : Nat)
    (item item2 : ImportEpub.EpubItem) (env : ImportEpub.EpubEnv) :
    (∀ s, ImportPdf.page_to_section page index = Option.some s →
      s.id = natDigits (index + 1) ∧ s.heading = Option.none ∧ s.content = pyStrip page) ∧
    (ImportPdf.page_to_section page index = Option.none ↔ pyStrip page = []) ∧
    (∀ s, ImportEpub.sectionOfItem item = Option.some s →
      s.id = item.name ∧ s.heading = item.title ∧
        s.content = ImportEpub.html_to_text item.content) ∧
    (ImportEpub.sectionOfItem item = Option.none ↔
      ImportEpub.html_to_text item.content = []) ∧
    (EpubExtract.chaptersOf env).length = env.items.length ∧
    (findTitle (decomposeExcluded (buildSoup item2.content)) = Option.none →
      (EpubExtract.extract_chapter item2).title = item2.name) := by
  refine ⟨?_, ?_, ?_, ?_, ?_, ?_⟩
  · intro s hs
    rw [ImportPdf.page_to_section] at hs
    split at hs
    · cases hs
    · cases hs
      exact ⟨rfl, rfl, rfl⟩
  · rw [ImportPdf.page_to_section]
    split
    case _ h => simpa using h
    case _ h =>
      constructor
      · intro hx; cases hx
      · intro hx; exact absurd hx h
  · intro s hs
    rw [ImportEpub.sectionOfItem] at hs
    split at hs
    · cases hs
    · cases hs
      exact ⟨rfl, rfl, rfl⟩
  · rw [ImportEpub.sectionOfItem]
    split
    case _ h => simpa [List.isEmpty_iff] using h
    case _ h =>
      constructor
      · intro hx; cases hx
      · intro hx
        exact absurd hx (by simpa [List.isEmpty_iff] using h)
  · exact List.length_map env.items EpubExtract.extract_chapter
  · intro hT
    rw [EpubExtract.extract_chapter]
    simp only [hT]

theorem claim_C6_witness :
    (EpubExtract.extract_chapter ⟨"ch1".data, Option.none, "<p>Hello</p>".data⟩).title =
      "ch1".data :=
  (claim_C6_amended_section_builder "pg".data 0
    ⟨"ch1".data, Option.none, "<p>Hello</p>".data⟩
    ⟨"ch1".data, Option.none, "<p>Hello</p>".data⟩
    ⟨true, true, [], [], [], [], []⟩).2.2.2.2.2 (by rfl)

/-- C7 counterexample: the Text Normalizer is not idempotent: for the
input "abc- \n\nxyz" the first pass yields "abc-\n\nxyz" (the stray
space is trimmed, leaving a hyphen right before the paragraph break),
and the second pass dehyphenates across that break and merges the two
paragraphs into "abc xyz". -/
theorem claim_C7_counterexample :
    PdfExtract.clean_text (PdfExtract.clean_text "abc- \n\nxyz".data) ≠
      PdfExtract.clean_text "abc- \n\nxyz".data := by decide

/-- C7 amended: the Text Normalizer is idempotent on every input whose
normalized output contains no hyphen directly followed by a newline
(i.e. no paragraph other than the last ends with a hyphen); re-running
it on such output returns it unchanged. -/
theorem claim_C7_amended_idempotent (raw : Str)
    (h : noHyphenBreak (PdfExtract.clean_text raw) = true) :
    PdfExtract.clean_text (PdfExtract.clean_text raw) = PdfExtract.clean_text raw :=
  clean_text_idem_of_noHyphenBreak raw h

theorem claim_C7_witness :
    PdfExtract.clean_text (PdfExtract.clean_text "He-\nllo.\n\nBye  bye.\n".data) =
      PdfExtract.clean_text "He-\nllo.\n\nBye  bye.\n".data :=
  claim_C7_amended_idempotent "He-\nllo.\n\nBye  bye.\n".data (by decide)

/-- C8: consecutive block boundaries with no character data between
them produce no empty paragraph: `<p></p><p>Hello</p>` yields exactly
the single paragraph "Hello" in both the import_epub line extractor and
the epub_extract chapter extractor. -/
theorem claim_C8_consecutive_blocks :
    ImportEpub.html_to_text_lines "<p></p><p>Hello</p>".data = ["Hello".data] ∧
    (EpubExtract.extract_chapter ⟨"ch".data, Option.none,
      "<p></p><p>Hello</p>".data⟩).paragraphs = ["Hello".data] :=
  ⟨by rfl, by rfl⟩

/-- C9: when the single path argument does not name an existing file,
each of the four scripts exits with status 1 and writes no Document to
stdout; import_pdf and import_epub report "File not found" as plain
text on stderr, while pdf_extract and epub_extract print the
`{ok: false, code: *_NOT_FOUND, message: path}` JSON error payload on
stderr. -/
theorem claim_C9_missing_source (prog p : Str) (envP : PdfEnv) (envE : ImportEpub.EpubEnv)
    (hP : envP.pathExists = false) (hE : envE.pathExists = false) :
    ImportPdf.main [prog, p] envP =
      ⟨1, [], "File not found: ".data ++ p ++ ['\n']⟩ ∧
    PdfExtract.main [prog, p] envP =
      ⟨1, [], renderJson (PdfExtract.errorJson "PDF_NOT_FOUND".data p) ++ ['\n']⟩ ∧
    ImportEpub.main [prog, p] envE =
      ⟨1, [], "File not found: ".data ++ p ++ ['\n']⟩ ∧
    EpubExtract.main [prog, p] envE =
      ⟨1, [], renderJson (PdfExtract.errorJson "EPUB_NOT_FOUND".data p) ++ ['\n']⟩ ∧
    (ImportPdf.main [prog, p] envP).exitCode ≠ 0 ∧
    (PdfExtract.main [prog, p] envP).exitCode ≠ 0 ∧
    (ImportEpub.main [prog, p] envE).exitCode ≠ 0 ∧
    (EpubExtract.main [prog, p] envE).exitCode ≠ 0 ∧
    (ImportPdf.main [prog, p] envP).out = [] ∧
    (PdfExtract.main [prog, p] envP).out = [] ∧
    (ImportEpub.main [prog, p] envE).out = [] ∧
    (EpubExtract.main [prog, p] envE).out = [] ∧
    (ImportPdf.main [prog, p] envP).err ≠ [] ∧
    (PdfExtract.main [prog, p] envP).err ≠ [] ∧
    (ImportEpub.main [prog, p] envE).err ≠ [] ∧
    (EpubExtract.main [prog, p] envE).err ≠ [] := by
  have e1 : ImportPdf.main [prog, p] envP =
      ⟨1, [], "File not found: ".data ++ p ++ ['\n']⟩ := by
    rw [ImportPdf.main, if_neg (by simp), if_pos (by simp [hP])]
    rfl
  have e2 : PdfExtract.main [prog, p] envP =
      ⟨1, [], renderJson (PdfExtract.errorJson "PDF_NOT_FOUND".data p) ++ ['\n']⟩ := by
    rw [PdfExtract.main, if_neg (by simp), if_pos (by simp [hP])]
    rfl
  have e3 : ImportEpub.main [prog, p] envE =
      ⟨1, [], "File not found: ".data ++ p ++ ['\n']⟩ := by
    rw [ImportEpub.main, if_neg (by simp), if_pos (by simp [hE])]
    rfl
  have e4 : EpubExtract.main [prog, p] envE =
      ⟨1, [], renderJson (PdfExtract.errorJson "EPUB_NOT_FOUND".data p) ++ ['\n']⟩ := by
    rw [EpubExtract.main, if_neg (by simp), if_pos (by simp [hE])]
    rfl
  rw [e1, e2, e3, e4]
  refine ⟨rfl, rfl, rfl, rfl, by simp, by simp, by simp, by simp,
    rfl, rfl, rfl, rfl, by simp, by simp, by simp, by simp⟩

theorem claim_C9_witness :
    ImportPdf.main ["i".data, "gone.pdf".data] ⟨false, true, [], [], [], []⟩ =
      ⟨1, [], "File not found: ".data ++ "gone.pdf".data ++ ['\n']⟩ ∧
    PdfExtract.main ["i".data, "gone.pdf".data] ⟨false, true, [], [], [], []⟩ =
      ⟨1, [], renderJson (PdfExtract.errorJson "PDF_NOT_FOUND".data "gone.pdf".data) ++
        ['\n']⟩ :=
  ⟨(claim_C9_missing_source "i".data "gone.pdf".data ⟨false, true, [], [], [], []⟩
      ⟨false, true, [], [], [], [], []⟩ rfl rfl).1,
   (claim_C9_missing_source "i".data "gone.pdf".data ⟨false, true, [], [], [], []⟩
      ⟨false, true, [], [], [], [], []⟩ rfl rfl).2.1⟩

/-- C10: in pdf_extract, for a successfully opened PDF (whose path stem
is a non-empty string, as for any real file) the emitted meta.title is
never null and never empty — a missing or empty library title falls
back to the stem — and meta.author is never null, falling back to the
empty string. -/
theorem claim_C10_pdf_meta_fallback (env : PdfEnv) (hstem : env.stem ≠ []) :
    PdfExtract.metaTitleVal env ≠ PyVal.none ∧
    PdfExtract.metaTitleVal env ≠ PyVal.str [] ∧
    PdfExtract.metaAuthorVal env ≠ PyVal.none ∧
    (pyTruthy (pyGet env.metadata "title".data) = false →
      PdfExtract.metaTitleVal env = PyVal.str env.stem) ∧
    (pyTruthy (pyGet env.metadata "author".data) = false →
      PdfExtract.metaAuthorVal env = PyVal.str []) := by
  refine ⟨?_, ?_, ?_, ?_, ?_⟩
  · rw [PdfExtract.metaTitleVal]
    split
    · intro he
      rename_i hv
      rw [he] at hv
      exact absurd hv (by decide)
    · intro he
      cases he
  · rw [PdfExtract.metaTitleVal]
    split
    · intro he
      rename_i hv
      rw [he] at hv
      exact absurd hv (by decide)
    · intro he
      injection he with he2
      exact hstem he2
  · rw [PdfExtract.metaAuthorVal]
    split
    · intro he
      rename_i hv
      rw [he] at hv
      exact absurd hv (by decide)
    · intro he
      cases he
  · intro hf
    rw [PdfExtract.metaTitleVal, if_neg (by simp [hf])]
  · intro hf
    rw [PdfExtract.metaAuthorVal, if_neg (by simp [hf])]

theorem claim_C10_witness :
    PdfExtract.metaTitleVal ⟨true, true, [], [], [], "doc".data⟩ ≠ PyVal.none ∧
    PdfExtract.metaTitleVal ⟨true, true, [], [], [], "doc".data⟩ ≠ PyVal.str [] ∧
    PdfExtract.metaAuthorVal ⟨true, true, [], [], [], "doc".data⟩ ≠ PyVal.none ∧
    (pyTruthy (pyGet ([] : List (Str × PyVal)) "title".data) = false →
      PdfExtract.metaTitleVal ⟨true, true, [], [], [], "doc".data⟩ =
        PyVal.str "doc".data) ∧
    (pyTruthy (pyGet ([] : List (Str × PyVal)) "author".data) = false →
      PdfExtract.metaAuthorVal ⟨true, true, [], [], [], "doc".data⟩ = PyVal.str []) :=
  claim_C10_pdf_meta_fallback ⟨true, true, [], [], [], "doc".data⟩ (by decide)

end Reader
